import Mathlib

/-!
Verification of the Jyro VS Code LSP document analyzer
(`src/server/src/analyzer/documentAnalyzer.ts`).

The analyzer is a regex/line-oriented static-analysis engine.  We embed it
shallowly: lines are `List Char`, the JS regexes are translated to explicit
scanning functions with the same leftmost-match / greedy semantics, and the
mutable `DocumentAnalyzer` class becomes explicit state passing.  All
definitions are structurally recursive (fuel-based where the source iterates
by index) so that every concrete run kernel-evaluates.
-/

namespace Jyro

/-- JS `\w` word characters: `[A-Za-z0-9_]`. -/
def isWordChar (c : Char) : Bool :=
  c.isAlpha || c.isDigit || c == '_'

/-- JS `[a-zA-Z_]` (identifier start in the analyzer's regexes). -/
def isIdentStart (c : Char) : Bool :=
  c.isAlpha || c == '_'

/-- JS `[a-zA-Z0-9]` (function-name tail in the PascalCase-call regex). -/
def isAlnum (c : Char) : Bool :=
  c.isAlpha || c.isDigit

/-- JS `\s` for the ASCII range (space, tab, newline, CR, vertical tab, form feed). -/
def isSpaceJS (c : Char) : Bool :=
  c == ' ' || c == '\t' || c == '\n' || c == '\r' || c == '\x0b' || c == '\x0c'

/-- JS `String.prototype.trim`. -/
def jsTrim (l : List Char) : List Char :=
  ((l.dropWhile isSpaceJS).reverse.dropWhile isSpaceJS).reverse

/-- JS `trimmed.replace(/#.*$/, '')`: drop everything from the first `#` on. -/
def takeUntilHash (l : List Char) : List Char :=
  l.takeWhile (fun c => c != '#')

/-- Number of consecutive backslashes immediately preceding index `i`
(the source counts them with a backward `while (line[j] === '\\')` loop). -/
def bsRun (l : List Char) : Nat → Nat
  | 0 => 0
  | i + 1 => if l[i]? == some '\\' then bsRun l i + 1 else 0

/-- One step of the string-literal state machine: `inString` toggles on an
unescaped quote that opens a literal or matches the opening quote. -/
def toggleQuote (inS : Option Char) (c : Char) : Option Char :=
  match inS with
  | none => some c
  | some q => if q == c then none else some q

/-- The `inString` state after the first `i` characters of the line have been
scanned by `hasBalancedStrings`'s loop. -/
def stateAfter (l : List Char) : Nat → Option Char
  | 0 => none
  | i + 1 =>
    let s := stateAfter l i
    match l[i]? with
    | some c =>
      if (c == '"' || c == '\'') && bsRun l i % 2 == 0 then toggleQuote s c else s
    | none => s

/-- Embeds `DocumentAnalyzer.hasBalancedStrings`: true iff the scan ends outside
any string literal. -/
def hasBalancedStrings (l : List Char) : Bool :=
  (stateAfter l l.length).isNone

/-- Tail handling of `removeStringLiterals`: if the scan ends inside a string,
the unterminated tail (from the opening quote) is appended verbatim. -/
def rslEnd (l : List Char) (res : List Char) (inS : Option (Char × Nat)) : List Char :=
  match inS with
  | some (_, st) => res ++ l.drop st
  | none => res

/-- Main loop of `removeStringLiterals` (fuel = number of remaining loop
iterations; the wrapper supplies `l.length`, making this the source's
`for (i = 0; i < line.length; i++)` loop). -/
def rslGo (l : List Char) : Nat → Nat → List Char → Option (Char × Nat) → List Char
  | 0, _, res, inS => rslEnd l res inS
  | f + 1, i, res, inS =>
    match l[i]? with
    | none => rslEnd l res inS
    | some c =>
      if c == '"' || c == '\'' then
        if bsRun l i % 2 == 0 then
          match inS with
          | none => rslGo l f (i + 1) res (some (c, i))
          | some (q, st) =>
            if q == c then rslGo l f (i + 1) (res ++ ['"', '"']) none
            else rslGo l f (i + 1) res (some (q, st))
        else
          -- escaped quote: the source's `else if (!inString)` belongs to the
          -- outer `if`, so an escaped quote is never copied to the result
          rslGo l f (i + 1) res inS
      else
        match inS with
        | none => rslGo l f (i + 1) (res ++ [c]) none
        | some (q, st) => rslGo l f (i + 1) res (some (q, st))

/-- Embeds `DocumentAnalyzer.removeStringLiterals`: blank out string-literal
contents (each completed literal becomes `""`). -/
def removeStringLiterals (l : List Char) : List Char :=
  rslGo l l.length 0 [] none

/-! ### Regex-style matching primitives

The analyzer's JS regexes are translated position by position: `\b` is a word
boundary, alternations are tried in source order, quantifiers are greedy (the
few places where the JS engine would backtrack are noted and resolved to the
deterministic result the engine produces). -/

/-- First index `j ≥ i` such that `l[j]` fails `p` (or `l.length`); the length
of a maximal run, used for the greedy `\w+`, `\s*`, `\d+` … quantifiers.
Fuel-based so that it kernel-evaluates; the wrapper passes `l.length`. -/
def runEndF (p : Char → Bool) (l : List Char) : Nat → Nat → Nat
  | 0, i => i
  | f + 1, i =>
    match l[i]? with
    | some c => if p c then runEndF p l f (i + 1) else i
    | none => i

/-- First index `j ≥ i` where `p` fails (or end of line). -/
def runEnd (p : Char → Bool) (l : List Char) (i : Nat) : Nat :=
  runEndF p l l.length i

/-- Does `kw` occur literally at index `i`? -/
def matchAt (l : List Char) (i : Nat) (kw : List Char) : Bool :=
  (l.drop i).take kw.length == kw

/-- JS `\b` on the left of a word character at index `i`. -/
def boundaryBefore (l : List Char) (i : Nat) : Bool :=
  match i with
  | 0 => true
  | j + 1 =>
    match l[j]? with
    | some c => !isWordChar c
    | none => true

/-- JS `\b` on the right of a word character ending before index `j`. -/
def boundaryAfter (l : List Char) (j : Nat) : Bool :=
  match l[j]? with
  | some c => !isWordChar c
  | none => true

/-- Whole word `kw` at index `i` (`\bkw\b`). -/
def wordAt (l : List Char) (i : Nat) (kw : List Char) : Bool :=
  matchAt l i kw && boundaryBefore l i && boundaryAfter l (i + kw.length)

/-- JS `/\bkw\b/.test(l)`. -/
def containsWord (l : List Char) (kw : List Char) : Bool :=
  (List.range (l.length + 1)).any (fun i => wordAt l i kw)

/-- JS `l.includes(kw)` (substring test). -/
def containsSubstr (l : List Char) (kw : List Char) : Bool :=
  (List.range (l.length + 1)).any (fun i => matchAt l i kw)

/-- JS `/^kw\b/.test(l)`. -/
def startsWithWord (l : List Char) (kw : List Char) : Bool :=
  matchAt l 0 kw && boundaryAfter l kw.length

/-- JS `l.indexOf(sub)` (−1 when absent). -/
def jsIndexOf (l : List Char) (sub : List Char) : Int :=
  match (List.range (l.length + 1)).find? (fun i => matchAt l i sub) with
  | some i => (i : Int)
  | none => -1

/-- JS `l.indexOf(sub, start)` (−1 when absent). -/
def jsIndexOfFrom (l : List Char) (sub : List Char) (start : Nat) : Int :=
  match (List.range (l.length + 1)).find? (fun i => start ≤ i && matchAt l i sub) with
  | some i => (i : Int)
  | none => -1

/-- All matches of a regex, in the global-`exec` style: scan positions left to
right, emit the match found at the earliest position, resume at its end.
`f p` returns `some (e, a)` when a match starting at `p` ends at `e` and
carries data `a`.  (All the analyzer's global regexes match at least one
character, so `max e (p+1)` only documents progress.) -/
def findAllF (f : Nat → Option (Nat × α)) (len : Nat) : Nat → Nat → List (Nat × Nat × α)
  | 0, _ => []
  | fu + 1, p =>
    if p ≤ len then
      match f p with
      | some (e, a) => (p, e, a) :: findAllF f len fu (max e (p + 1))
      | none => findAllF f len fu (p + 1)
    else []

/-- All matches `(start, end, data)` of a global regex over a line of length
`len`. -/
def findAll (f : Nat → Option (Nat × α)) (len : Nat) : List (Nat × Nat × α) :=
  findAllF f len (len + 1) 0

/-- First match of a (non-global) regex: earliest position where `f` fires. -/
def findFirst (f : Nat → Option α) (len : Nat) : Option (Nat × α) :=
  (List.range (len + 1)).findSome? (fun i => (f i).map (fun a => (i, a)))

/-! ### Data model -/

/-- The block kinds pushed on the block stack
(`match[1]` of `/\b(if|while|for|foreach|switch)\b/`). -/
inductive BlockKind where
  | bIf | bWhile | bFor | bForeach | bSwitch
  deriving DecidableEq, Repr

/-- Embeds `block.type === 'while' || block.type === 'foreach' || block.type === 'for'`. -/
def BlockKind.isLoop : BlockKind → Bool
  | .bWhile => true
  | .bForeach => true
  | .bFor => true
  | _ => false

/-- The keyword text of a block kind. -/
def BlockKind.kw : BlockKind → List Char
  | .bIf => "if".toList
  | .bWhile => "while".toList
  | .bFor => "for".toList
  | .bForeach => "foreach".toList
  | .bSwitch => "switch".toList

/-- The LSP `DiagnosticSeverity` (only the three the analyzer uses). -/
inductive Sev where
  | error | warning | information
  deriving DecidableEq, Repr

/-- The analyzer's diagnostic messages, one constructor per `addDiagnostic`
call site, carrying the data interpolated into the source's message string
(see `Msg.render`). -/
inductive Msg where
  | unreachable
  | unclosedString
  | unexpectedEnd
  | unclosedBlock (kind : BlockKind)
  | breakContinue (isBreak : Bool)
  | stepNotPositive
  | sleepNotPositive
  | unknownType (ty : List Char)
  | hostFn (name : List Char)
  | undefinedVar (name : List Char)
  deriving DecidableEq, Repr

/-- The exact message strings of the source. -/
def Msg.render : Msg → String
  | .unreachable => "Unreachable code detected"
  | .unclosedString => "Unclosed string literal"
  | .unexpectedEnd => "Unexpected \"end\" without matching block start"
  | .unclosedBlock k =>
    "Unclosed \"" ++ String.mk k.kw ++ "\" block - missing \"end\""
  | .breakContinue isBreak =>
    "\"" ++ (if isBreak then "break" else "continue") ++ "\" can only be used inside loops"
  | .stepNotPositive => "For loop step must be a positive number"
  | .sleepNotPositive => "Sleep() requires a positive integer millisecond value"
  | .unknownType ty =>
    "Unknown type \"" ++ String.mk ty ++ "\". Expected: number, string, boolean, object, or array"
  | .hostFn n =>
    "Referenced function \"" ++ String.mk n ++ "\" will need to be made available at runtime"
  | .undefinedVar n => "Undefined variable \"" ++ String.mk n ++ "\""

/-- A diagnostic: `range` start/end (line, character) plus message and
severity.  Characters are `Int` because the source's `indexOf`-based position
math can produce −1. -/
structure Diag where
  startLine : Nat
  startChar : Int
  endLine : Nat
  endChar : Int
  message : Msg
  severity : Sev
  deriving DecidableEq, Repr

/-- The `SymbolInfo` record. -/
structure Sym where
  name : List Char
  type : Option (List Char)
  line : Nat
  character : Int
  deriving DecidableEq, Repr

/-- The `keywords` list of `DocumentAnalyzer`. -/
def keywords : List (List Char) :=
  (["var", "if", "then", "else", "elseif", "end", "switch", "do", "case", "default",
    "while", "for", "foreach", "in", "to", "downto", "by", "return", "fail", "break",
    "continue", "true", "false", "null", "and", "or", "not", "is", "Data"]).map String.toList

/-- The `typeKeywords` list. -/
def typeKeywords : List (List Char) :=
  (["number", "string", "boolean", "object", "array"]).map String.toList

/-- Embeds `getAllFunctionNames()`: the names of `STDLIB_FUNCTIONS` from
`src/shared/src/stdlib.ts`, in source order. -/
def functionNames : List (List Char) :=
  (["ToUpper", "ToLower", "Trim", "Replace", "Contains", "StartsWith", "EndsWith",
    "Split", "Join", "Substring", "ToNumber", "PadLeft", "PadRight", "RegexTest",
    "RegexMatch", "RegexMatchAll", "RegexMatchDetail", "RandomString", "Length",
    "Append", "Prepend", "First", "Last", "IndexOf", "Reverse", "Slice",
    "Concatenate", "Distinct", "Sort", "Flatten", "FlattenOnce", "Range", "Skip",
    "Insert", "RemoveAt", "RemoveFirst", "RemoveLast", "RandomChoice", "SortByField",
    "GroupBy", "SelectMany", "Abs", "Floor", "Ceiling", "Min", "Max", "Power",
    "SquareRoot", "Log", "Sum", "Average", "Clamp", "Median", "Mode", "RandomInt",
    "Now", "Today", "ParseDate", "FormatDate", "DateAdd", "DateDiff", "DatePart",
    "WhereByField", "FindByField", "AnyByField", "AllByField", "CountIf", "Select",
    "Project", "Omit", "Map", "Where", "Reduce", "Each", "Find", "All", "Any",
    "SortBy", "TypeOf", "Equal", "NotEqual", "Coalesce", "ToString", "ToBoolean",
    "Keys", "Values", "HasProperty", "Merge", "Clone", "NewGuid", "Base64Encode",
    "Base64Decode", "FromJson", "ToJson", "Sleep", "ValidateRequired",
    "ValidateSchema"]).map String.toList

/-! ### `checkSyntax` -/

/-- Embeds `const trimmed = line.trim()`. -/
def lineTrim (l : List Char) : List Char := jsTrim l

/-- Embeds `trimmed.startsWith('#') || trimmed.length === 0`. -/
def skipLine (l : List Char) : Bool :=
  (lineTrim l).head? == some '#' || (lineTrim l).isEmpty

/-- Embeds `removeStringLiterals(trimmed.replace(/#.*$/, ''))`. -/
def lineTws (l : List Char) : List Char :=
  removeStringLiterals (takeUntilHash (lineTrim l))

/-- The keyword `end` as a character list. -/
def kwEndL : List Char := "end".toList

/-- The keyword `break` as a character list. -/
def kwBreakL : List Char := "break".toList

/-- The keyword `continue` as a character list. -/
def kwContinueL : List Char := "continue".toList

/-- JS `/^(end|else|elseif|case|default)\b/.test(tws)`. -/
def isBlockBoundaryL (tws : List Char) : Bool :=
  (["end", "else", "elseif", "case", "default"]).any
    (fun kw => startsWithWord tws kw.toList)

/-- JS `/^(return|fail)\b/.test(tws)`. -/
def startsReturnFail (tws : List Char) : Bool :=
  startsWithWord tws ("return".toList) || startsWithWord tws ("fail".toList)

/-- JS `/^\s*elseif\b/i.test(trimmed)`. -/
def startsWithElseifCI (trimmed : List Char) : Bool :=
  let t := trimmed.dropWhile isSpaceJS
  ((t.take 6).map Char.toLower == "elseif".toList) && boundaryAfter t 6

/-- The alternation order of `/\b(if|while|for|foreach|switch)\b/`. -/
def blockKwList : List BlockKind :=
  [.bIf, .bWhile, .bFor, .bForeach, .bSwitch]

/-- First whole-word block keyword of the line (the regex's leftmost match;
at a given position the alternatives are tried in source order and each must
pass the trailing `\b`, which is how `foreach` wins over `for`). -/
def findFirstBlockKw (tws : List Char) : Option BlockKind :=
  (List.range (tws.length + 1)).findSome? (fun i =>
    if boundaryBefore tws i then
      blockKwList.findSome? (fun k =>
        if matchAt tws i k.kw && boundaryAfter tws (i + k.kw.length) then some k else none)
    else none)

/-- The mutable state of `checkSyntax`'s line loop. -/
structure SynState where
  stack : List (BlockKind × Nat)
  inLoop : Int
  afterTerminator : Bool
  diags : List Diag
  deriving DecidableEq, Repr

/-- Initial state of the loop. -/
def initSyn : SynState := ⟨[], 0, false, []⟩

/-- Embeds `addDiagnostic` (diagnostics are collected in discovery order). -/
def pushDiag (st : SynState) (d : Diag) : SynState :=
  { st with diags := st.diags ++ [d] }

/-- The unreachable-code warning plus the `afterTerminator` update. -/
def termCheck (i : Nat) (trimmed tws : List Char) (st : SynState) : SynState :=
  let isBB := isBlockBoundaryL tws
  let st1 :=
    if st.afterTerminator && !isBB then
      pushDiag st ⟨i, 0, i, (trimmed.length : Int), .unreachable, .warning⟩
    else st
  if isBB then { st1 with afterTerminator := false }
  else if startsReturnFail tws then { st1 with afterTerminator := true }
  else st1

/-- The unclosed-string check. -/
def stringCheck (i : Nat) (line : List Char) (st : SynState) : SynState :=
  if !hasBalancedStrings line then
    pushDiag st ⟨i, 0, i, (line.length : Int), .unclosedString, .error⟩
  else st

/-- Block-open detection and push (skipped on a leading `elseif`). -/
def openCheck (i : Nat) (trimmed tws : List Char) (st : SynState) : SynState :=
  if !startsWithElseifCI trimmed then
    match findFirstBlockKw tws with
    | some k =>
      { st with stack := (k, i) :: st.stack,
                inLoop := if k.isLoop then st.inLoop + 1 else st.inLoop }
    | none => st
  else st

/-- The `end` handling: pop, or the unexpected-`end` error on an empty stack. -/
def endCheck (i : Nat) (trimmed tws : List Char) (st : SynState) : SynState :=
  if containsWord tws kwEndL then
    match st.stack with
    | [] => pushDiag st ⟨i, 0, i, (trimmed.length : Int), .unexpectedEnd, .error⟩
    | (k, _) :: rest =>
      { st with stack := rest,
                inLoop := if k.isLoop then st.inLoop - 1 else st.inLoop }
  else st

/-- The `break`/`continue` check outside a loop. -/
def breakCheck (i : Nat) (trimmed tws : List Char) (st : SynState) : SynState :=
  if (containsWord tws kwBreakL || containsWord tws kwContinueL)
      && st.inLoop == 0 then
    pushDiag st ⟨i, 0, i, (trimmed.length : Int),
      .breakContinue (containsSubstr tws kwBreakL), .error⟩
  else st

/-- Value of a digit list, as `parseFloat` reads it. -/
def digitsVal (ds : List Char) : Nat :=
  ds.foldl (fun n c => 10 * n + (c.toNat - 48)) 0

/-- Exact value of a matched numeric literal `-?\d+(?:\.\d+)?`. -/
def litValQ (neg : Bool) (intDs fracDs : List Char) : ℚ :=
  let m : ℚ := (digitsVal intDs : ℚ) + (digitsVal fracDs : ℚ) / ((10 : ℚ) ^ fracDs.length)
  if neg then -m else m

/-- A match of `/\bby\s+(-?\d+(?:\.\d+)?)\b/` starting at `i`: returns
`(match end, literal start)`.  The fraction is greedy; when the trailing `\b`
fails after the fraction the engine backtracks to the integer part (where the
boundary holds, the next character being `.`). -/
def matchStepAt (tws : List Char) (i : Nat) : Option (Nat × Nat) :=
  if boundaryBefore tws i && matchAt tws i ("by".toList) then
    let wsEnd := runEnd isSpaceJS tws (i + 2)
    if i + 2 < wsEnd then
      let litStart := wsEnd
      let digStart := if tws[litStart]? == some '-' then litStart + 1 else litStart
      let intEnd := runEnd Char.isDigit tws digStart
      if digStart < intEnd then
        let fracEnd :=
          if tws[intEnd]? == some '.' then runEnd Char.isDigit tws (intEnd + 1) else intEnd
        if intEnd + 1 < fracEnd ∧ boundaryAfter tws fracEnd then some (fracEnd, litStart)
        else if boundaryAfter tws intEnd then some (intEnd, litStart)
        else none
      else none
    else none
  else none

/-- The literal's exact value given its start and the match end. -/
def litValAt (tws : List Char) (litStart mEnd : Nat) : ℚ :=
  let neg := tws[litStart]? == some '-'
  let digStart := if neg then litStart + 1 else litStart
  let intEnd := runEnd Char.isDigit tws digStart
  let intDs := (tws.drop digStart).take (intEnd - digStart)
  let fracDs := if intEnd < mEnd then (tws.drop (intEnd + 1)).take (mEnd - (intEnd + 1)) else []
  litValQ neg intDs fracDs

/-- The invalid-for-loop-step check. -/
def stepCheck (i : Nat) (line tws : List Char) (st : SynState) : SynState :=
  match findFirst (matchStepAt tws) tws.length with
  | some (p, (mEnd, litStart)) =>
    if litValAt tws litStart mEnd ≤ 0 then
      let matched := (tws.drop p).take (mEnd - p)
      let lit := (tws.drop litStart).take (mEnd - litStart)
      let stepPos := jsIndexOf line matched
      let valueStart := stepPos + jsIndexOf matched lit
      pushDiag st ⟨i, valueStart, i, valueStart + lit.length, .stepNotPositive, .error⟩
    else st
  | none => st

/-- A match of `/\bSleep\s*\(\s*(-?\d+(?:\.\d+)?)\s*\)/` starting at `i`:
returns `(match end, literal start, literal end)`.  If the fraction matched
but `\s*\)` fails, backtracking to the integer part also fails (the next
character is `.`), so the fraction is committed. -/
def matchSleepAt (tws : List Char) (i : Nat) : Option (Nat × Nat × Nat) :=
  if boundaryBefore tws i && matchAt tws i ("Sleep".toList) then
    let ws1 := runEnd isSpaceJS tws (i + 5)
    if tws[ws1]? == some '(' then
      let litStart := runEnd isSpaceJS tws (ws1 + 1)
      let digStart := if tws[litStart]? == some '-' then litStart + 1 else litStart
      let intEnd := runEnd Char.isDigit tws digStart
      if digStart < intEnd then
        let fracEnd :=
          if tws[intEnd]? == some '.' then runEnd Char.isDigit tws (intEnd + 1) else intEnd
        let numEnd := if intEnd + 1 < fracEnd then fracEnd else intEnd
        let ws3 := runEnd isSpaceJS tws numEnd
        if tws[ws3]? == some ')' then some (ws3 + 1, litStart, numEnd) else none
      else none
    else none
  else none

/-- The invalid-`Sleep()`-argument check. -/
def sleepCheck (i : Nat) (line tws : List Char) (st : SynState) : SynState :=
  match findFirst (matchSleepAt tws) tws.length with
  | some (p, (mEnd, litStart, numEnd)) =>
    if litValAt tws litStart numEnd ≤ 0 then
      let matched := (tws.drop p).take (mEnd - p)
      let lit := (tws.drop litStart).take (numEnd - litStart)
      let sleepPos := jsIndexOf line matched
      let valueStart := sleepPos + jsIndexOf matched lit
      pushDiag st ⟨i, valueStart, i, valueStart + lit.length, .sleepNotPositive, .error⟩
    else st
  | none => st

/-- JS `/^\s*var\s+/.test(trimmed)`. -/
def startsVarWs (trimmed : List Char) : Bool :=
  let w := runEnd isSpaceJS trimmed 0
  matchAt trimmed w ("var".toList) && w + 3 < runEnd isSpaceJS trimmed (w + 3)

/-- JS `trimmed.match(/^var\s+\w+\s*:\s*(\w+)/)`: `(name, type)` on success. -/
def varTypeMatch (trimmed : List Char) : Option (List Char × List Char) :=
  if matchAt trimmed 0 ("var".toList) then
    let ws1 := runEnd isSpaceJS trimmed 3
    if 3 < ws1 then
      let nameEnd := runEnd isWordChar trimmed ws1
      if ws1 < nameEnd then
        let ws2 := runEnd isSpaceJS trimmed nameEnd
        if trimmed[ws2]? == some ':' then
          let ws3 := runEnd isSpaceJS trimmed (ws2 + 1)
          let tyEnd := runEnd isWordChar trimmed ws3
          if ws3 < tyEnd then
            some ((trimmed.drop ws1).take (nameEnd - ws1),
                  (trimmed.drop ws3).take (tyEnd - ws3))
          else none
        else none
      else none
    else none
  else none

/-- The invalid-type-annotation check (the span comes from
`line.indexOf(match[1])`, the first occurrence of the type text). -/
def typeCheck (i : Nat) (line trimmed : List Char) (st : SynState) : SynState :=
  if startsVarWs trimmed then
    match varTypeMatch trimmed with
    | some (_, ty) =>
      if typeKeywords.contains ty then st
      else
        let pos := jsIndexOf line ty
        pushDiag st ⟨i, pos, i, pos + (ty.length : Int), .unknownType ty, .error⟩
    | none => st
  else st

/-- A match of `/\b([A-Z][a-zA-Z0-9]*)\s*\(/` starting at `i`:
`(match end, function name)`. -/
def matchFnCallAt (tws : List Char) (i : Nat) : Option (Nat × List Char) :=
  match tws[i]? with
  | some c =>
    if boundaryBefore tws i && c.isUpper then
      let nameEnd := runEnd isAlnum tws (i + 1)
      let ws := runEnd isSpaceJS tws nameEnd
      if tws[ws]? == some '(' then some (ws + 1, (tws.drop i).take (nameEnd - i)) else none
    else none
  | none => none

/-- The host-function advisory (Information severity, gated by
`options.warnOnHostFunctions`). -/
def advisoryCheck (warnHost : Bool) (i : Nat) (line tws : List Char) (st : SynState) :
    SynState :=
  if warnHost then
    (findAll (matchFnCallAt tws) tws.length).foldl (fun st pa =>
      let name := pa.2.2
      if keywords.contains name then st
      else if functionNames.contains name then st
      else
        let leadWs : Int := (line.length - (line.dropWhile isSpaceJS).length : Nat)
        let pos := leadWs + pa.1
        pushDiag st ⟨i, pos, i, pos + (name.length : Int), .hostFn name, .information⟩) st
  else st

/-- One iteration of `checkSyntax`'s `forEach` over the lines, with the
checks applied in source order.  (The source also counts parentheses, braces
and brackets per line, but those counts are never used, so they are not
modelled.) -/
def processLine (warnHost : Bool) (st : SynState) (i : Nat) (line : List Char) : SynState :=
  if skipLine line then st
  else
    let trimmed := lineTrim line
    let tws := lineTws line
    advisoryCheck warnHost i line tws
      (typeCheck i line trimmed
        (sleepCheck i line tws
          (stepCheck i line tws
            (breakCheck i trimmed tws
              (endCheck i trimmed tws
                (openCheck i trimmed tws
                  (stringCheck i line
                    (termCheck i trimmed tws st))))))))

/-- The whole line loop. -/
def runLines (warnHost : Bool) (st : SynState) (i : Nat) : List (List Char) → SynState
  | [] => st
  | l :: rest => runLines warnHost (processLine warnHost st i l) (i + 1) rest

/-- The end-of-document unclosed-block check: one error for the innermost
(most recently pushed) unclosed entry. -/
def unclosedDiags (lines : List (List Char)) (stack : List (BlockKind × Nat)) : List Diag :=
  match stack with
  | [] => []
  | (k, ln) :: _ =>
    [⟨ln, 0, ln, ((lines.getD ln []).length : Int), .unclosedBlock k, .error⟩]

/-- All diagnostics produced by the syntax pass. -/
def syntaxDiags (warnHost : Bool) (lines : List (List Char)) : List Diag :=
  let fin := runLines warnHost initSyn 0 lines
  fin.diags ++ unclosedDiags lines fin.stack

/-! ### `extractSymbols` -/

/-- The `"iterator"` symbol tag. -/
def iteratorTag : List Char := "iterator".toList

/-- The `"lambda-param"` symbol tag. -/
def lambdaParamTag : List Char := "lambda-param".toList

/-- The `"property"` symbol tag. -/
def propTag : List Char := "property".toList

/-- A match of `/\bvar\s+(\w+)(?:\s*:\s*(\w+))?/` starting at `i`:
`(match end, (name, optional type))`. -/
def matchVarAt (trimmed : List Char) (i : Nat) :
    Option (Nat × (List Char × Option (List Char))) :=
  if boundaryBefore trimmed i && matchAt trimmed i ("var".toList) then
    let ws1 := runEnd isSpaceJS trimmed (i + 3)
    if i + 3 < ws1 then
      let nameEnd := runEnd isWordChar trimmed ws1
      if ws1 < nameEnd then
        let name := (trimmed.drop ws1).take (nameEnd - ws1)
        let ws2 := runEnd isSpaceJS trimmed nameEnd
        if trimmed[ws2]? == some ':' then
          let ws3 := runEnd isSpaceJS trimmed (ws2 + 1)
          let tyEnd := runEnd isWordChar trimmed ws3
          if ws3 < tyEnd then
            some (tyEnd, (name, some ((trimmed.drop ws3).take (tyEnd - ws3))))
          else some (nameEnd, (name, none))
        else some (nameEnd, (name, none))
      else none
    else none
  else none

/-- A match of `/\bforeach\s+(\w+)\s+in\b/` starting at `i` (name only). -/
def matchForeachAt (trimmed : List Char) (i : Nat) : Option (List Char) :=
  if boundaryBefore trimmed i && matchAt trimmed i ("foreach".toList) then
    let ws1 := runEnd isSpaceJS trimmed (i + 7)
    if i + 7 < ws1 then
      let nameEnd := runEnd isWordChar trimmed ws1
      if ws1 < nameEnd then
        let ws2 := runEnd isSpaceJS trimmed nameEnd
        if nameEnd < ws2 && matchAt trimmed ws2 ("in".toList)
            && boundaryAfter trimmed (ws2 + 2) then
          some ((trimmed.drop ws1).take (nameEnd - ws1))
        else none
      else none
    else none
  else none

/-- A match of `/\bfor\s+(\w+)\s+in\b/` starting at `i` (name only). -/
def matchForAt (trimmed : List Char) (i : Nat) : Option (List Char) :=
  if boundaryBefore trimmed i && matchAt trimmed i ("for".toList) then
    let ws1 := runEnd isSpaceJS trimmed (i + 3)
    if i + 3 < ws1 then
      let nameEnd := runEnd isWordChar trimmed ws1
      if ws1 < nameEnd then
        let ws2 := runEnd isSpaceJS trimmed nameEnd
        if nameEnd < ws2 && matchAt trimmed ws2 ("in".toList)
            && boundaryAfter trimmed (ws2 + 2) then
          some ((trimmed.drop ws1).take (nameEnd - ws1))
        else none
      else none
    else none
  else none

/-- A match of `/\(([^)]*)\)\s*=>/` starting at `i`: `(match end, contents)`. -/
def matchParenLambdaAt (trimmed : List Char) (i : Nat) : Option (Nat × List Char) :=
  if trimmed[i]? == some '(' then
    let cEnd := runEnd (fun c => c != ')') trimmed (i + 1)
    if trimmed[cEnd]? == some ')' then
      let ws := runEnd isSpaceJS trimmed (cEnd + 1)
      if trimmed[ws]? == some '=' && trimmed[ws + 1]? == some '>' then
        some (ws + 2, (trimmed.drop (i + 1)).take (cEnd - (i + 1)))
      else none
    else none
  else none

/-- A match of `/\b(\w+)\s*=>/` starting at `i`: `(match end, name)`. -/
def matchBareLambdaAt (trimmed : List Char) (i : Nat) : Option (Nat × List Char) :=
  if boundaryBefore trimmed i then
    let nameEnd := runEnd isWordChar trimmed i
    if i < nameEnd then
      let ws := runEnd isSpaceJS trimmed nameEnd
      if trimmed[ws]? == some '=' && trimmed[ws + 1]? == some '>' then
        some (ws + 2, (trimmed.drop i).take (nameEnd - i))
      else none
    else none
  else none

/-- Ends of the successive `(?:\.[a-zA-Z_]\w*)` segments of a dotted path
starting after position `e` (fuel-based; each segment consumes ≥ 2 chars). -/
def segEndsF (s : List Char) : Nat → Nat → List Nat
  | 0, _ => []
  | f + 1, e =>
    if s[e]? == some '.' then
      match s[e + 1]? with
      | some c =>
        if isIdentStart c then
          let e2 := runEnd isWordChar s (e + 2)
          e2 :: segEndsF s f e2
        else []
      | none => []
    else []

/-- Ends of the dot-segments starting at `e`. -/
def segEnds (s : List Char) (e : Nat) : List Nat :=
  segEndsF s s.length e

/-- A match of `/\b([a-zA-Z_]\w*(?:\.[a-zA-Z_]\w*)+)\s*=/` starting at `i`:
`(match end, path)`.  The segment group is greedy and the engine backtracks
over the number of segments until `\s*=` matches. -/
def matchPropAt (s : List Char) (i : Nat) : Option (Nat × List Char) :=
  match s[i]? with
  | some c =>
    if boundaryBefore s i && isIdentStart c then
      let seg1 := runEnd isWordChar s (i + 1)
      (segEnds s seg1).reverse.findSome? (fun e =>
        let w := runEnd isSpaceJS s e
        if s[w]? == some '=' then some (w + 1, (s.drop i).take (e - i)) else none)
    else none
  | none => none

/-- JS `String.prototype.split(',')`. -/
def splitComma : List Char → List (List Char)
  | [] => [[]]
  | c :: rest =>
    match splitComma rest with
    | h :: t => if c == ',' then [] :: h :: t else (c :: h) :: t
    | [] => [[c]]

/-- Symbols from the `var` declarations of a line. -/
def varSymsOf (line trimmed : List Char) (i : Nat) : List Sym :=
  (findAll (matchVarAt trimmed) trimmed.length).map (fun pm =>
    ⟨pm.2.2.1, pm.2.2.2, i, jsIndexOfFrom line pm.2.2.1 pm.1⟩)

/-- Symbol from the first `foreach … in` of a line. -/
def foreachSymOf (line trimmed : List Char) (i : Nat) : List Sym :=
  match findFirst (matchForeachAt trimmed) trimmed.length with
  | some (_, name) => [⟨name, some iteratorTag, i, jsIndexOf line name⟩]
  | none => []

/-- Symbol from the first `for … in` of a line. -/
def forSymOf (line trimmed : List Char) (i : Nat) : List Sym :=
  match findFirst (matchForAt trimmed) trimmed.length with
  | some (p, name) => [⟨name, some iteratorTag, i, jsIndexOfFrom line name p⟩]
  | none => []

/-- The symbol one parenthesized-lambda parameter contributes (empty unless
the trimmed parameter matches `/^\w+$/`). -/
def parenParamSyms (line : List Char) (i p : Nat) (param : List Char) : List Sym :=
  let t := jsTrim param
  if !t.isEmpty && t.all isWordChar then
    [⟨t, some lambdaParamTag, i, jsIndexOfFrom line t p⟩]
  else []

/-- Symbols from the parenthesized lambda parameter lists of a line. -/
def parenLambdaSymsOf (line trimmed : List Char) (i : Nat) : List Sym :=
  ((findAll (matchParenLambdaAt trimmed) trimmed.length).map (fun pm =>
    ((splitComma pm.2.2).map (parenParamSyms line i pm.1)).flatten)).flatten

/-- Bare lambda parameters, deduplicated against the symbols already
collected for the same name/line/tag. -/
def bareLambdaFold (line trimmed : List Char) (i : Nat) (syms : List Sym) : List Sym :=
  (findAll (matchBareLambdaAt trimmed) trimmed.length).foldl (fun syms pm =>
    let name := pm.2.2
    if syms.any (fun s => s.name == name && s.line == i && s.type == some lambdaParamTag) then
      syms
    else syms ++ [⟨name, some lambdaParamTag, i, jsIndexOfFrom line name pm.1⟩]) syms

/-- Property-path assignments: only the first textual occurrence of a path,
document-wide, is recorded (`seenProps`). -/
def propFold (line trimmed : List Char) (i : Nat) (acc : List Sym × List (List Char)) :
    List Sym × List (List Char) :=
  (findAll (matchPropAt trimmed) trimmed.length).foldl (fun sp pm =>
    let path := pm.2.2
    if sp.2.contains path then sp
    else (sp.1 ++ [⟨path, some propTag, i, jsIndexOf line path⟩], path :: sp.2)) acc

/-- One iteration of `extractSymbols`'s line loop. -/
def extractLine (i : Nat) (line : List Char) (acc : List Sym × List (List Char)) :
    List Sym × List (List Char) :=
  if skipLine line then acc
  else
    let trimmed := lineTrim line
    let syms := acc.1 ++ varSymsOf line trimmed i
    let syms := syms ++ foreachSymOf line trimmed i
    let syms := syms ++ forSymOf line trimmed i
    let syms := syms ++ parenLambdaSymsOf line trimmed i
    let syms := bareLambdaFold line trimmed i syms
    propFold line trimmed i (syms, acc.2)

/-- The whole `extractSymbols` loop. -/
def extractLoop (i : Nat) (acc : List Sym × List (List Char)) :
    List (List Char) → List Sym
  | [] => acc.1
  | l :: rest => extractLoop (i + 1) (extractLine i l acc) rest

/-- Embeds `extractSymbols`: appends the document's symbols to `syms` (the
`seenProps` set starts fresh on every call). -/
def extractAll (lines : List (List Char)) (syms : List Sym) : List Sym :=
  extractLoop 0 (syms, []) lines

/-! ### `validateSemantics` -/

/-- A match of `/\b([a-zA-Z_]\w*)\b/` starting at `i`: `(match end, token)`.
A maximal word run starting with a letter or underscore. -/
def tokenMatchAt (lwc : List Char) (i : Nat) : Option (Nat × List Char) :=
  match lwc[i]? with
  | some c =>
    if boundaryBefore lwc i && isIdentStart c then
      let e := runEnd isWordChar lwc (i + 1)
      some (e, (lwc.drop i).take (e - i))
    else none
  | none => none

/-- The `continue` conditions of `validateSemantics`'s token loop. -/
def skipToken (lwc : List Char) (p e : Nat) (tok : List Char) : Bool :=
  (decide (0 < p) && (lwc[p - 1]? == some '.'))
  || (lwc[runEnd isSpaceJS lwc e]? == some '(')
  || (let w := runEnd isSpaceJS lwc e
      (lwc[w]? == some ':') && !(lwc[w + 1]? == some ':'))
  || keywords.contains tok
  || typeKeywords.contains tok
  || functionNames.any (fun f => f.map Char.toLower == tok.map Char.toLower)

/-- The diagnostics one identifier token contributes (empty when one of the
source's `continue` conditions fires or the token is declared). -/
def valSemItem (lwc : List Char) (declared : List (List Char)) (i : Nat)
    (pm : Nat × Nat × List Char) : List Diag :=
  if skipToken lwc pm.1 pm.2.1 pm.2.2 then []
  else if declared.contains pm.2.2 then []
  else [⟨i, (pm.1 : Int), i, ((pm.1 + pm.2.2.length : Nat) : Int),
          .undefinedVar pm.2.2, .warning⟩]

/-- Undefined-variable warnings for one line (the token loop appends the
per-token diagnostics in order). -/
def valSemLine (declared : List (List Char)) (i : Nat) (line : List Char) : List Diag :=
  if skipLine line then []
  else
    let lwc := takeUntilHash (removeStringLiterals line)
    ((findAll (tokenMatchAt lwc) lwc.length).map (valSemItem lwc declared i)).flatten

/-- The `validateSemantics` line loop. -/
def valSemLines (declared : List (List Char)) (i : Nat) : List (List Char) → List Diag
  | [] => []
  | l :: rest => valSemLine declared i l ++ valSemLines declared (i + 1) rest

/-- Embeds `validateSemantics`: flags identifier references that resolve to nothing. -/
def validateSemantics (lines : List (List Char)) (symbols : List Sym) : List Diag :=
  let declared := symbols.map Sym.name ++ ["Data".toList]
  valSemLines declared 0 lines

/-! ### The `DocumentAnalyzer` class -/

/-- The `AnalyzerOptions` record. -/
structure AnalyzerOptions where
  warnOnHostFunctions : Bool
  deriving DecidableEq, Repr

/-- The constructor's default options. -/
def defaultOptions : AnalyzerOptions := ⟨true⟩

/-- The class's mutable fields (text/uri are only stored; `lines` is what
every pass reads). -/
structure Analyzer where
  lines : List (List Char)
  options : AnalyzerOptions
  diagnostics : List Diag
  symbols : List Sym
  deriving DecidableEq, Repr

/-- Embeds `text.split('\n')`. -/
def splitNl : List Char → List (List Char)
  | [] => [[]]
  | c :: rest =>
    match splitNl rest with
    | h :: t => if c == '\n' then [] :: h :: t else (c :: h) :: t
    | [] => [[c]]

/-- Embeds `line.replace(/\r$/, '')`. -/
def stripCR (l : List Char) : List Char :=
  if l.getLast? == some '\r' then l.dropLast else l

/-- The constructor's line splitting. -/
def splitLines (text : String) : List (List Char) :=
  (splitNl text.toList).map stripCR

/-- Embeds `new DocumentAnalyzer(text, uri, options)`. -/
def mkAnalyzer (text : String) (opts : AnalyzerOptions) : Analyzer :=
  ⟨splitLines text, opts, [], []⟩

/-- Embeds `analyze()`: reset the diagnostic and symbol lists, then run the three
passes in order. -/
def analyze (a : Analyzer) : List Diag × Analyzer :=
  let lines := a.lines
  let d1 := syntaxDiags a.options.warnOnHostFunctions lines
  let syms := extractAll lines []
  let diags := d1 ++ validateSemantics lines syms
  (diags, { a with diagnostics := diags, symbols := syms })

/-- Embeds `getSymbols()`: extract on demand when the list is empty. -/
def getSymbols (a : Analyzer) : List Sym × Analyzer :=
  if a.symbols.isEmpty then
    let s := extractAll a.lines a.symbols
    (s, { a with symbols := s })
  else (a.symbols, a)

/-! ### Closed form of `processLine`

Each check of the line loop appends an explicitly describable batch of
diagnostics and performs an explicitly describable state update; composing
them gives a normal form for `processLine` from which the per-claim facts
(which diagnostics a line can emit, how the stack and loop counter evolve)
fall out. -/

/-- Diagnostics added by the unreachable-code check. -/
def termDiag (i : Nat) (trimmed tws : List Char) (aT : Bool) : List Diag :=
  if aT && !isBlockBoundaryL tws then
    [⟨i, 0, i, (trimmed.length : Int), .unreachable, .warning⟩]
  else []

/-- The `afterTerminator` update of a (non-skipped) line. -/
def termFlagF (tws : List Char) (aT : Bool) : Bool :=
  if isBlockBoundaryL tws then false
  else if startsReturnFail tws then true
  else aT

/-- Diagnostics added by the unclosed-string check. -/
def stringDiag (i : Nat) (line : List Char) : List Diag :=
  if !hasBalancedStrings line then
    [⟨i, 0, i, (line.length : Int), .unclosedString, .error⟩]
  else []

/-- The block keyword the open check reacts to. -/
def openKindF (trimmed tws : List Char) : Option BlockKind :=
  if startsWithElseifCI trimmed then none else findFirstBlockKw tws

/-- The stack after the open check. -/
def openStackF (s : List (BlockKind × Nat)) (i : Nat) (trimmed tws : List Char) :
    List (BlockKind × Nat) :=
  match openKindF trimmed tws with
  | some k => (k, i) :: s
  | none => s

/-- The loop counter after the open check. -/
def openLoopF (n : Int) (trimmed tws : List Char) : Int :=
  match openKindF trimmed tws with
  | some k => if k.isLoop then n + 1 else n
  | none => n

/-- The stack after the `end` check, given the stack `s1` it sees. -/
def endStackF (tws : List Char) (s1 : List (BlockKind × Nat)) : List (BlockKind × Nat) :=
  if containsWord tws kwEndL then s1.tail else s1

/-- The loop counter after the `end` check. -/
def endLoopF (tws : List Char) (s1 : List (BlockKind × Nat)) (n : Int) : Int :=
  if containsWord tws kwEndL then
    match s1 with
    | [] => n
    | (k, _) :: _ => if k.isLoop then n - 1 else n
  else n

/-- Diagnostics added by the `end` check. -/
def endDiagF (i : Nat) (trimmed tws : List Char) (s1 : List (BlockKind × Nat)) : List Diag :=
  if containsWord tws kwEndL ∧ s1 = [] then
    [⟨i, 0, i, (trimmed.length : Int), .unexpectedEnd, .error⟩]
  else []

/-- Diagnostics added by the `break`/`continue` check, given the loop
counter `n` it sees. -/
def breakDiagF (i : Nat) (trimmed tws : List Char) (n : Int) : List Diag :=
  if (containsWord tws kwBreakL || containsWord tws kwContinueL)
      && n == 0 then
    [⟨i, 0, i, (trimmed.length : Int),
      .breakContinue (containsSubstr tws kwBreakL), .error⟩]
  else []

/-- Diagnostics added by the step check. -/
def stepDiag (i : Nat) (line tws : List Char) : List Diag :=
  match findFirst (matchStepAt tws) tws.length with
  | some (p, (mEnd, litStart)) =>
    if litValAt tws litStart mEnd ≤ 0 then
      let matched := (tws.drop p).take (mEnd - p)
      let lit := (tws.drop litStart).take (mEnd - litStart)
      let valueStart := jsIndexOf line matched + jsIndexOf matched lit
      [⟨i, valueStart, i, valueStart + lit.length, .stepNotPositive, .error⟩]
    else []
  | none => []

/-- Diagnostics added by the `Sleep()` check. -/
def sleepDiag (i : Nat) (line tws : List Char) : List Diag :=
  match findFirst (matchSleepAt tws) tws.length with
  | some (p, (mEnd, litStart, numEnd)) =>
    if litValAt tws litStart numEnd ≤ 0 then
      let matched := (tws.drop p).take (mEnd - p)
      let lit := (tws.drop litStart).take (numEnd - litStart)
      let valueStart := jsIndexOf line matched + jsIndexOf matched lit
      [⟨i, valueStart, i, valueStart + lit.length, .sleepNotPositive, .error⟩]
    else []
  | none => []

/-- Diagnostics added by the type-annotation check. -/
def typeDiag (i : Nat) (line trimmed : List Char) : List Diag :=
  if startsVarWs trimmed then
    match varTypeMatch trimmed with
    | some (_, ty) =>
      if typeKeywords.contains ty then []
      else
        let pos := jsIndexOf line ty
        [⟨i, pos, i, pos + (ty.length : Int), .unknownType ty, .error⟩]
    | none => []
  else []

/-- The diagnostics one PascalCase-call match contributes to the advisory. -/
def advisoryItem (i : Nat) (line : List Char) (pa : Nat × Nat × List Char) : List Diag :=
  let name := pa.2.2
  if keywords.contains name then []
  else if functionNames.contains name then []
  else
    let leadWs : Int := (line.length - (line.dropWhile isSpaceJS).length : Nat)
    let pos := leadWs + pa.1
    [⟨i, pos, i, pos + (name.length : Int), .hostFn name, .information⟩]

/-- Diagnostics added by the host-function advisory. -/
def advisoryDiags (warnHost : Bool) (i : Nat) (line tws : List Char) : List Diag :=
  if warnHost then
    ((findAll (matchFnCallAt tws) tws.length).map (advisoryItem i line)).flatten
  else []

/-- All diagnostics a (non-skipped) line adds, in emission order. -/
def lineDiags (warnHost : Bool) (st : SynState) (i : Nat) (l : List Char) : List Diag :=
  let trimmed := lineTrim l
  let tws := lineTws l
  let s1 := openStackF st.stack i trimmed tws
  let n2 := endLoopF tws s1 (openLoopF st.inLoop trimmed tws)
  termDiag i trimmed tws st.afterTerminator ++ stringDiag i l ++
    endDiagF i trimmed tws s1 ++ breakDiagF i trimmed tws n2 ++
    stepDiag i l tws ++ sleepDiag i l tws ++ typeDiag i l trimmed ++
    advisoryDiags warnHost i l tws

/-! ### Spec-side notions used by the claims

Message testers, the abstract stack events of a line, Dyck-style balance of a
document's events, the loop-count invariant value, and the property-symbol
count and invariant used for the deduplication claim. -/

/-- Message testers used to trace a diagnostic kind through the passes. -/
def dUnexp (d : Diag) : Bool :=
  match d.message with | .unexpectedEnd => true | _ => false

/-- Tester for the unclosed-block message. -/
def dUnclosedB (d : Diag) : Bool :=
  match d.message with | .unclosedBlock _ => true | _ => false

/-- Tester for the break/continue message. -/
def dBreakMsg (d : Diag) : Bool :=
  match d.message with | .breakContinue _ => true | _ => false

/-- Tester for the unreachable-code message. -/
def dUnreach (d : Diag) : Bool :=
  match d.message with | .unreachable => true | _ => false

/-- Tester for the unknown-type message. -/
def dUnkTy (d : Diag) : Bool :=
  match d.message with | .unknownType _ => true | _ => false

/-- The block keyword a line pushes (none on skipped lines, on a leading
`elseif`, or when no block keyword occurs). -/
def lineOpenK (l : List Char) : Option BlockKind :=
  if skipLine l then none else openKindF (lineTrim l) (lineTws l)

/-- Does the line trigger the `end` handling? -/
def lineEndB (l : List Char) : Bool :=
  !skipLine l && containsWord (lineTws l) kwEndL

/-- Abstract stack events of a line. -/
inductive Ev where
  | push (k : BlockKind)
  | pop
  deriving DecidableEq, Repr

/-- The events of one line, in the order the checks fire. -/
def lineEvents (l : List Char) : List Ev :=
  (match lineOpenK l with | some k => [.push k] | none => [])
    ++ (if lineEndB l then [.pop] else [])

/-- The events of a whole document. -/
def docEvents (lines : List (List Char)) : List Ev :=
  (lines.map lineEvents).flatten

/-- Dyck-style balance from depth `d`: every pop finds a non-empty stack and
the depth returns to 0. -/
def balancedFrom : Nat → List Ev → Bool
  | d, [] => d == 0
  | d, .push _ :: es => balancedFrom (d + 1) es
  | d, .pop :: es => (d != 0) && balancedFrom (d - 1) es

/-- A document whose block openings and `end`s nest perfectly. -/
def WellFormedDoc (lines : List (List Char)) : Bool :=
  balancedFrom 0 (docEvents lines)

/-- Number of loop entries on the stack (the loop counter's invariant value). -/
def loopCount (s : List (BlockKind × Nat)) : Int :=
  ((s.filter (fun e => e.1.isLoop)).length : Int)

/-- Number of property-tagged symbols named `q`. -/
def cntProp (q : List Char) (syms : List Sym) : Nat :=
  (syms.filter (fun s => s.type == some propTag && s.name == q)).length

/-- The extraction invariant: for dotted names, at most one property symbol,
and none at all for paths not yet seen. -/
def PropInv (syms : List Sym) (seen : List (List Char)) : Prop :=
  ∀ q : List Char, '.' ∈ q →
    cntProp q syms ≤ 1 ∧ (q ∉ seen → cntProp q syms = 0)

/-- Equation lemma for `termCheck`. -/
theorem termCheck_eq (i : Nat) (trimmed tws : List Char) (st : SynState) :
    termCheck i trimmed tws st =
      { st with afterTerminator := termFlagF tws st.afterTerminator,
                diags := st.diags ++ termDiag i trimmed tws st.afterTerminator } := by
  obtain ⟨s, n, aT, ds⟩ := st
  unfold termCheck termFlagF termDiag pushDiag
  by_cases h1 : aT <;>
    by_cases h2 : isBlockBoundaryL tws <;>
    by_cases h3 : startsReturnFail tws <;>
    simp [h1, h2, h3]

/-- Equation lemma for `stringCheck`. -/
theorem stringCheck_eq (i : Nat) (line : List Char) (st : SynState) :
    stringCheck i line st = { st with diags := st.diags ++ stringDiag i line } := by
  unfold stringCheck stringDiag pushDiag
  by_cases h : hasBalancedStrings line <;> simp [h]

/-- Equation lemma for `openCheck`. -/
theorem openCheck_eq (i : Nat) (trimmed tws : List Char) (st : SynState) :
    openCheck i trimmed tws st =
      { st with stack := openStackF st.stack i trimmed tws,
                inLoop := openLoopF st.inLoop trimmed tws } := by
  unfold openCheck openStackF openLoopF openKindF
  by_cases h : startsWithElseifCI trimmed
  · simp [h]
  · cases findFirstBlockKw tws <;> simp [h]

/-- Equation lemma for `endCheck`. -/
theorem endCheck_eq (i : Nat) (trimmed tws : List Char) (st : SynState) :
    endCheck i trimmed tws st =
      { st with stack := endStackF tws st.stack,
                inLoop := endLoopF tws st.stack st.inLoop,
                diags := st.diags ++ endDiagF i trimmed tws st.stack } := by
  obtain ⟨s, n, aT, ds⟩ := st
  unfold endCheck endStackF endLoopF endDiagF pushDiag
  by_cases h : containsWord tws kwEndL <;> cases s <;> simp [h]

/-- Equation lemma for `breakCheck`. -/
theorem breakCheck_eq (i : Nat) (trimmed tws : List Char) (st : SynState) :
    breakCheck i trimmed tws st =
      { st with diags := st.diags ++ breakDiagF i trimmed tws st.inLoop } := by
  unfold breakCheck breakDiagF pushDiag
  by_cases h : (containsWord tws kwBreakL || containsWord tws kwContinueL)
      && st.inLoop == 0 <;> simp [h]

/-- Equation lemma for `stepCheck`. -/
theorem stepCheck_eq (i : Nat) (line tws : List Char) (st : SynState) :
    stepCheck i line tws st = { st with diags := st.diags ++ stepDiag i line tws } := by
  unfold stepCheck stepDiag pushDiag
  cases h : findFirst (matchStepAt tws) tws.length with
  | none => simp
  | some pm =>
    obtain ⟨p, mEnd, litStart⟩ := pm
    by_cases hv : litValAt tws litStart mEnd ≤ 0 <;> simp [hv]

/-- Equation lemma for `sleepCheck`. -/
theorem sleepCheck_eq (i : Nat) (line tws : List Char) (st : SynState) :
    sleepCheck i line tws st = { st with diags := st.diags ++ sleepDiag i line tws } := by
  unfold sleepCheck sleepDiag pushDiag
  cases h : findFirst (matchSleepAt tws) tws.length with
  | none => simp
  | some pm =>
    obtain ⟨p, mEnd, litStart, numEnd⟩ := pm
    by_cases hv : litValAt tws litStart numEnd ≤ 0 <;> simp [hv]

/-- Equation lemma for `typeCheck`. -/
theorem typeCheck_eq (i : Nat) (line trimmed : List Char) (st : SynState) :
    typeCheck i line trimmed st = { st with diags := st.diags ++ typeDiag i line trimmed } := by
  unfold typeCheck typeDiag pushDiag
  by_cases h : startsVarWs trimmed <;> simp [h]
  cases hm : varTypeMatch trimmed with
  | none => simp
  | some nt =>
    obtain ⟨n, ty⟩ := nt
    by_cases ht : ty ∈ typeKeywords <;> simp [ht]

/-- Equation lemma for `advisoryCheck` (the fold only ever appends). -/
theorem advisoryCheck_eq (w : Bool) (i : Nat) (line tws : List Char) (st : SynState) :
    advisoryCheck w i line tws st =
      { st with diags := st.diags ++ advisoryDiags w i line tws } := by
  unfold advisoryCheck advisoryDiags
  cases w with
  | false => simp
  | true =>
    simp only [eq_self_iff_true, if_true]
    generalize findAll (matchFnCallAt tws) tws.length = ms
    induction ms generalizing st with
    | nil => simp
    | cons pa rest ih =>
      simp only [List.foldl_cons, List.map_cons, List.flatten_cons]
      rw [ih]
      by_cases h1 : pa.2.2 ∈ keywords <;>
        by_cases h2 : pa.2.2 ∈ functionNames <;>
        simp [h1, h2, pushDiag, advisoryItem, List.append_assoc]

/-- Closed form of `processLine` on a non-skipped line. -/
theorem processLine_eq (w : Bool) (st : SynState) (i : Nat) (l : List Char)
    (h : skipLine l = false) :
    processLine w st i l =
      { stack := endStackF (lineTws l) (openStackF st.stack i (lineTrim l) (lineTws l)),
        inLoop := endLoopF (lineTws l) (openStackF st.stack i (lineTrim l) (lineTws l))
                    (openLoopF st.inLoop (lineTrim l) (lineTws l)),
        afterTerminator := termFlagF (lineTws l) st.afterTerminator,
        diags := st.diags ++ lineDiags w st i l } := by
  unfold processLine lineDiags
  rw [if_neg (by simp [h])]
  dsimp only
  rw [termCheck_eq, stringCheck_eq, openCheck_eq, endCheck_eq, breakCheck_eq,
    stepCheck_eq, sleepCheck_eq, typeCheck_eq, advisoryCheck_eq]
  simp [List.append_assoc]

/-! ### Block events and well-formed nestings -/

theorem loopCount_nil : loopCount [] = 0 := rfl

theorem loopCount_cons (p : BlockKind × Nat) (s : List (BlockKind × Nat)) :
    loopCount (p :: s) = if p.1.isLoop then loopCount s + 1 else loopCount s := by
  unfold loopCount
  by_cases h : p.1.isLoop <;> simp [List.filter_cons, h]

/-! ### Classification of per-line diagnostics -/

theorem mem_termDiag {i : Nat} {tr tws : List Char} {aT : Bool} :
    ∀ d ∈ termDiag i tr tws aT, d.message = .unreachable ∧ d.severity = .warning := by
  intro d hd
  unfold termDiag at hd
  split at hd
  · simp only [List.mem_singleton] at hd
    subst hd
    exact ⟨rfl, rfl⟩
  · simp at hd

theorem mem_stringDiag {i : Nat} {l : List Char} :
    ∀ d ∈ stringDiag i l, d.message = .unclosedString ∧ d.severity = .error := by
  intro d hd
  unfold stringDiag at hd
  split at hd
  · simp only [List.mem_singleton] at hd
    subst hd
    exact ⟨rfl, rfl⟩
  · simp at hd

theorem mem_endDiagF {i : Nat} {tr tws : List Char} {s1 : List (BlockKind × Nat)} :
    ∀ d ∈ endDiagF i tr tws s1, d.message = .unexpectedEnd ∧ d.severity = .error := by
  intro d hd
  unfold endDiagF at hd
  split at hd
  · simp only [List.mem_singleton] at hd
    subst hd
    exact ⟨rfl, rfl⟩
  · simp at hd

theorem mem_breakDiagF {i : Nat} {tr tws : List Char} {n : Int} :
    ∀ d ∈ breakDiagF i tr tws n,
      (∃ b, d.message = .breakContinue b) ∧ d.severity = .error := by
  intro d hd
  unfold breakDiagF at hd
  split at hd
  · simp only [List.mem_singleton] at hd
    subst hd
    exact ⟨⟨_, rfl⟩, rfl⟩
  · simp at hd

theorem mem_stepDiag {i : Nat} {line tws : List Char} :
    ∀ d ∈ stepDiag i line tws, d.message = .stepNotPositive ∧ d.severity = .error := by
  intro d hd
  unfold stepDiag at hd
  split at hd
  · split at hd
    · simp only [List.mem_singleton] at hd
      subst hd
      exact ⟨rfl, rfl⟩
    · simp at hd
  · simp at hd

theorem mem_sleepDiag {i : Nat} {line tws : List Char} :
    ∀ d ∈ sleepDiag i line tws, d.message = .sleepNotPositive ∧ d.severity = .error := by
  intro d hd
  unfold sleepDiag at hd
  split at hd
  · split at hd
    · simp only [List.mem_singleton] at hd
      subst hd
      exact ⟨rfl, rfl⟩
    · simp at hd
  · simp at hd

theorem mem_typeDiag {i : Nat} {line tr : List Char} :
    ∀ d ∈ typeDiag i line tr,
      (∃ ty, d.message = .unknownType ty) ∧ d.severity = .error := by
  intro d hd
  unfold typeDiag at hd
  split at hd
  · split at hd
    · split at hd
      · simp at hd
      · simp only [List.mem_singleton] at hd
        subst hd
        exact ⟨⟨_, rfl⟩, rfl⟩
    · simp at hd
  · simp at hd

theorem mem_advisoryItem {i : Nat} {line : List Char} {pa : Nat × Nat × List Char} :
    ∀ d ∈ advisoryItem i line pa,
      (∃ n, d.message = .hostFn n) ∧ d.severity = .information := by
  intro d hd
  unfold advisoryItem at hd
  dsimp only at hd
  split at hd
  · simp at hd
  · split at hd
    · simp at hd
    · simp only [List.mem_singleton] at hd
      subst hd
      exact ⟨⟨_, rfl⟩, rfl⟩

theorem mem_advisoryDiags {w : Bool} {i : Nat} {line tws : List Char} :
    ∀ d ∈ advisoryDiags w i line tws,
      (∃ n, d.message = .hostFn n) ∧ d.severity = .information ∧ w = true := by
  intro d hd
  unfold advisoryDiags at hd
  split at hd
  · simp only [List.mem_flatten, List.mem_map] at hd
    obtain ⟨lst, ⟨pa, _, rfl⟩, hdl⟩ := hd
    obtain ⟨hm, hs⟩ := mem_advisoryItem d hdl
    exact ⟨hm, hs, by assumption⟩
  · simp at hd

/-- Anything a line emits: its message kind, and Information severity only
with the advisory flag on. -/
theorem mem_lineDiags {w : Bool} {st : SynState} {i : Nat} {l : List Char} :
    ∀ d ∈ lineDiags w st i l,
      dUnclosedB d = false ∧ (d.severity = .information → w = true) := by
  intro d hd
  unfold lineDiags at hd
  simp only [List.mem_append] at hd
  rcases hd with ((((((h | h) | h) | h) | h) | h) | h) | h
  · obtain ⟨hm, hs⟩ := mem_termDiag d h
    exact ⟨by simp [dUnclosedB, hm], by simp [hs]⟩
  · obtain ⟨hm, hs⟩ := mem_stringDiag d h
    exact ⟨by simp [dUnclosedB, hm], by simp [hs]⟩
  · obtain ⟨hm, hs⟩ := mem_endDiagF d h
    exact ⟨by simp [dUnclosedB, hm], by simp [hs]⟩
  · obtain ⟨⟨b, hm⟩, hs⟩ := mem_breakDiagF d h
    exact ⟨by simp [dUnclosedB, hm], by simp [hs]⟩
  · obtain ⟨hm, hs⟩ := mem_stepDiag d h
    exact ⟨by simp [dUnclosedB, hm], by simp [hs]⟩
  · obtain ⟨hm, hs⟩ := mem_sleepDiag d h
    exact ⟨by simp [dUnclosedB, hm], by simp [hs]⟩
  · obtain ⟨⟨ty, hm⟩, hs⟩ := mem_typeDiag d h
    exact ⟨by simp [dUnclosedB, hm], by simp [hs]⟩
  · obtain ⟨⟨n, hm⟩, hs, hw⟩ := mem_advisoryDiags d h
    exact ⟨by simp [dUnclosedB, hm], fun _ => hw⟩

/-! ### Filter characterizations and the line loop -/

/-- A filter over a list none of whose members satisfies the predicate. -/
theorem dfilter_nil {α : Type} {P : α → Bool} {ds : List α}
    (h : ∀ d ∈ ds, P d = false) : ds.filter P = [] := by
  induction ds with
  | nil => rfl
  | cons d rest ih =>
    simp only [List.filter_cons]
    rw [h d (by simp)]
    exact ih (fun x hx => h x (by simp [hx]))

/-- A filter over a list all of whose members satisfy the predicate. -/
theorem dfilter_self {α : Type} {P : α → Bool} {ds : List α}
    (h : ∀ d ∈ ds, P d = true) : ds.filter P = ds := by
  induction ds with
  | nil => rfl
  | cons d rest ih =>
    simp only [List.filter_cons]
    rw [h d (by simp)]
    simp [ih (fun x hx => h x (by simp [hx]))]

/-- Converse direction: an empty filter means no member satisfies `P`. -/
theorem of_dfilter_nil {α : Type} {P : α → Bool} {ds : List α}
    (h : ds.filter P = []) : ∀ d ∈ ds, P d = false := by
  induction ds with
  | nil => simp
  | cons d rest ih =>
    simp only [List.filter_cons] at h
    intro x hx
    rcases List.mem_cons.mp hx with rfl | hx'
    · cases hP : P x
      · rfl
      · rw [hP] at h
        simp at h
    · refine ih ?_ x hx'
      cases hP : P d
      · rwa [hP] at h
      · rw [hP] at h
        simp at h

/-- The only unexpected-`end` diagnostics of a line come from the `end`
check. -/
theorem lineDiags_filter_unexp (w : Bool) (st : SynState) (i : Nat) (l : List Char) :
    (lineDiags w st i l).filter dUnexp =
      endDiagF i (lineTrim l) (lineTws l)
        (openStackF st.stack i (lineTrim l) (lineTws l)) := by
  unfold lineDiags
  dsimp only
  simp only [List.filter_append]
  rw [dfilter_nil (fun d hd => by simp [dUnexp, (mem_termDiag d hd).1]),
      dfilter_nil (fun d hd => by simp [dUnexp, (mem_stringDiag d hd).1]),
      dfilter_self (fun d hd => by simp [dUnexp, (mem_endDiagF d hd).1]),
      dfilter_nil (fun d hd => by
        obtain ⟨⟨b, hm⟩, _⟩ := mem_breakDiagF d hd; simp [dUnexp, hm]),
      dfilter_nil (fun d hd => by simp [dUnexp, (mem_stepDiag d hd).1]),
      dfilter_nil (fun d hd => by simp [dUnexp, (mem_sleepDiag d hd).1]),
      dfilter_nil (fun d hd => by
        obtain ⟨⟨t, hm⟩, _⟩ := mem_typeDiag d hd; simp [dUnexp, hm]),
      dfilter_nil (fun d hd => by
        obtain ⟨⟨n, hm⟩, _, _⟩ := mem_advisoryDiags d hd; simp [dUnexp, hm])]
  simp

/-- The only break/continue diagnostics of a line come from the break
check. -/
theorem lineDiags_filter_break (w : Bool) (st : SynState) (i : Nat) (l : List Char) :
    (lineDiags w st i l).filter dBreakMsg =
      breakDiagF i (lineTrim l) (lineTws l)
        (endLoopF (lineTws l) (openStackF st.stack i (lineTrim l) (lineTws l))
          (openLoopF st.inLoop (lineTrim l) (lineTws l))) := by
  unfold lineDiags
  dsimp only
  simp only [List.filter_append]
  rw [dfilter_nil (fun d hd => by simp [dBreakMsg, (mem_termDiag d hd).1]),
      dfilter_nil (fun d hd => by simp [dBreakMsg, (mem_stringDiag d hd).1]),
      dfilter_nil (fun d hd => by simp [dBreakMsg, (mem_endDiagF d hd).1]),
      dfilter_self (fun d hd => by
        obtain ⟨⟨b, hm⟩, _⟩ := mem_breakDiagF d hd; simp [dBreakMsg, hm]),
      dfilter_nil (fun d hd => by simp [dBreakMsg, (mem_stepDiag d hd).1]),
      dfilter_nil (fun d hd => by simp [dBreakMsg, (mem_sleepDiag d hd).1]),
      dfilter_nil (fun d hd => by
        obtain ⟨⟨t, hm⟩, _⟩ := mem_typeDiag d hd; simp [dBreakMsg, hm]),
      dfilter_nil (fun d hd => by
        obtain ⟨⟨n, hm⟩, _, _⟩ := mem_advisoryDiags d hd; simp [dBreakMsg, hm])]
  simp

/-- The only unreachable-code diagnostics of a line come from the terminator
check. -/
theorem lineDiags_filter_unreach (w : Bool) (st : SynState) (i : Nat) (l : List Char) :
    (lineDiags w st i l).filter dUnreach =
      termDiag i (lineTrim l) (lineTws l) st.afterTerminator := by
  unfold lineDiags
  dsimp only
  simp only [List.filter_append]
  rw [dfilter_self (fun d hd => by simp [dUnreach, (mem_termDiag d hd).1]),
      dfilter_nil (fun d hd => by simp [dUnreach, (mem_stringDiag d hd).1]),
      dfilter_nil (fun d hd => by simp [dUnreach, (mem_endDiagF d hd).1]),
      dfilter_nil (fun d hd => by
        obtain ⟨⟨b, hm⟩, _⟩ := mem_breakDiagF d hd; simp [dUnreach, hm]),
      dfilter_nil (fun d hd => by simp [dUnreach, (mem_stepDiag d hd).1]),
      dfilter_nil (fun d hd => by simp [dUnreach, (mem_sleepDiag d hd).1]),
      dfilter_nil (fun d hd => by
        obtain ⟨⟨t, hm⟩, _⟩ := mem_typeDiag d hd; simp [dUnreach, hm]),
      dfilter_nil (fun d hd => by
        obtain ⟨⟨n, hm⟩, _, _⟩ := mem_advisoryDiags d hd; simp [dUnreach, hm])]
  simp

/-- The only unknown-type diagnostics of a line come from the type check. -/
theorem lineDiags_filter_unkty (w : Bool) (st : SynState) (i : Nat) (l : List Char) :
    (lineDiags w st i l).filter dUnkTy = typeDiag i l (lineTrim l) := by
  unfold lineDiags
  dsimp only
  simp only [List.filter_append]
  rw [dfilter_nil (fun d hd => by simp [dUnkTy, (mem_termDiag d hd).1]),
      dfilter_nil (fun d hd => by simp [dUnkTy, (mem_stringDiag d hd).1]),
      dfilter_nil (fun d hd => by simp [dUnkTy, (mem_endDiagF d hd).1]),
      dfilter_nil (fun d hd => by
        obtain ⟨⟨b, hm⟩, _⟩ := mem_breakDiagF d hd; simp [dUnkTy, hm]),
      dfilter_nil (fun d hd => by simp [dUnkTy, (mem_stepDiag d hd).1]),
      dfilter_nil (fun d hd => by simp [dUnkTy, (mem_sleepDiag d hd).1]),
      dfilter_self (fun d hd => by
        obtain ⟨⟨t, hm⟩, _⟩ := mem_typeDiag d hd; simp [dUnkTy, hm]),
      dfilter_nil (fun d hd => by
        obtain ⟨⟨n, hm⟩, _, _⟩ := mem_advisoryDiags d hd; simp [dUnkTy, hm])]
  simp

/-- A skipped line leaves the state untouched. -/
theorem processLine_skip {w : Bool} {st : SynState} {i : Nat} {l : List Char}
    (h : skipLine l = true) : processLine w st i l = st := by
  unfold processLine
  rw [if_pos h]

/-- A skipped line has no events. -/
theorem lineEvents_skip {l : List Char} (h : skipLine l = true) : lineEvents l = [] := by
  simp [lineEvents, lineOpenK, lineEndB, h]

/-- The line loop never emits an unclosed-block diagnostic. -/
theorem runLines_unclosedB (w : Bool) :
    ∀ (lines : List (List Char)) (st : SynState) (i : Nat),
      (runLines w st i lines).diags.filter dUnclosedB = st.diags.filter dUnclosedB := by
  intro lines
  induction lines with
  | nil => intro st i; rfl
  | cons l rest ih =>
    intro st i
    show (runLines w (processLine w st i l) (i + 1) rest).diags.filter dUnclosedB = _
    rw [ih]
    by_cases hs : skipLine l
    · rw [processLine_skip hs]
    · have hs' : skipLine l = false := by simpa using hs
      rw [processLine_eq w st i l hs']
      dsimp only
      rw [List.filter_append,
        dfilter_nil (fun d hd => (mem_lineDiags d hd).1)]
      simp

/-- Information-severity diagnostics appear only with the advisory flag on. -/
theorem runLines_info (w : Bool) :
    ∀ (lines : List (List Char)) (st : SynState) (i : Nat),
      ∀ d ∈ (runLines w st i lines).diags,
        d ∈ st.diags ∨ (d.severity = .information → w = true) := by
  intro lines
  induction lines with
  | nil => intro st i d hd; exact .inl hd
  | cons l rest ih =>
    intro st i d hd
    rcases ih (processLine w st i l) (i + 1) d hd with h | h
    · by_cases hs : skipLine l
      · rw [processLine_skip hs] at h
        exact .inl h
      · have hs' : skipLine l = false := by simpa using hs
        rw [processLine_eq w st i l hs'] at h
        dsimp only at h
        rcases List.mem_append.mp h with h' | h'
        · exact .inl h'
        · exact .inr (mem_lineDiags d h').2
    · exact .inr h

/-- Main induction: from a state whose loop counter matches its stack, a
balanced event suffix drains the stack to `[]`, returns the loop counter to
0, and produces no unexpected-`end` diagnostic. -/
theorem runLines_balanced (w : Bool) :
    ∀ (lines : List (List Char)) (st : SynState) (i : Nat),
      balancedFrom st.stack.length (docEvents lines) = true →
      st.inLoop = loopCount st.stack →
      (runLines w st i lines).stack = [] ∧ (runLines w st i lines).inLoop = 0 ∧
      (runLines w st i lines).diags.filter dUnexp = st.diags.filter dUnexp := by
  intro lines
  induction lines with
  | nil =>
    intro st i hb hn
    simp only [docEvents, List.map_nil, List.flatten_nil] at hb
    have h0 : st.stack = [] := List.eq_nil_of_length_eq_zero (by simpa [balancedFrom] using hb)
    refine ⟨h0, ?_, rfl⟩
    show st.inLoop = 0
    rw [hn, h0, loopCount_nil]
  | cons l rest ih =>
    intro st i hb hn
    have hev : docEvents (l :: rest) = lineEvents l ++ docEvents rest := by
      simp [docEvents]
    rw [hev] at hb
    simp only [runLines]
    by_cases hs : skipLine l
    · rw [processLine_skip hs]
      rw [lineEvents_skip hs] at hb
      exact ih st (i + 1) (by simpa using hb) hn
    · have hs' : skipLine l = false := by simpa using hs
      have hopen : lineOpenK l = openKindF (lineTrim l) (lineTws l) := by
        simp [lineOpenK, hs']
      have hend : lineEndB l = containsWord (lineTws l) kwEndL := by
        simp [lineEndB, hs']
      rw [processLine_eq w st i l hs']
      have hfil : (st.diags ++ lineDiags w st i l).filter dUnexp =
          st.diags.filter dUnexp ++
            endDiagF i (lineTrim l) (lineTws l)
              (openStackF st.stack i (lineTrim l) (lineTws l)) := by
        rw [List.filter_append, lineDiags_filter_unexp]
      cases ho : openKindF (lineTrim l) (lineTws l) with
      | none =>
        cases he : containsWord (lineTws l) kwEndL with
        | false =>
          have hev1 : lineEvents l = [] := by
            simp [lineEvents, hopen, hend, ho, he]
          rw [hev1] at hb
          simp only [List.nil_append] at hb
          have hso : openStackF st.stack i (lineTrim l) (lineTws l) = st.stack := by
            simp [openStackF, ho]
          have hed : endDiagF i (lineTrim l) (lineTws l)
              (openStackF st.stack i (lineTrim l) (lineTws l)) = [] := by
            simp [endDiagF, he]
          rw [hso]
          have hend2 : endStackF (lineTws l) st.stack = st.stack := by
            simp [endStackF, he]
          have hl2 : endLoopF (lineTws l) st.stack
              (openLoopF st.inLoop (lineTrim l) (lineTws l)) = st.inLoop := by
            simp [endLoopF, he, openLoopF, ho]
          rw [hend2, hl2]
          obtain ⟨h1, h2, h3⟩ := ih
            ⟨st.stack, st.inLoop, termFlagF (lineTws l) st.afterTerminator,
              st.diags ++ lineDiags w st i l⟩ (i + 1) (by simpa using hb)
            (by simpa using hn)
          refine ⟨h1, h2, ?_⟩
          rw [h3]
          dsimp only
          rw [hfil, hed, List.append_nil]
        | true =>
          have hev1 : lineEvents l = [.pop] := by
            simp [lineEvents, hopen, hend, ho, he]
          rw [hev1] at hb
          simp only [List.cons_append, List.nil_append, balancedFrom,
            Bool.and_eq_true] at hb
          obtain ⟨hd0, hb2⟩ := hb
          obtain ⟨p, s', hst⟩ : ∃ p s', st.stack = p :: s' := by
            cases hc : st.stack with
            | nil => rw [hc] at hd0; simp at hd0
            | cons a b => exact ⟨a, b, rfl⟩
          have hso : openStackF st.stack i (lineTrim l) (lineTws l) = p :: s' := by
            simp [openStackF, ho, hst]
          have hed : endDiagF i (lineTrim l) (lineTws l)
              (openStackF st.stack i (lineTrim l) (lineTws l)) = [] := by
            simp [endDiagF, hso]
          have hend2 : endStackF (lineTws l)
              (openStackF st.stack i (lineTrim l) (lineTws l)) = s' := by
            rw [hso]
            simp [endStackF, he]
          have hl2 : endLoopF (lineTws l) (openStackF st.stack i (lineTrim l) (lineTws l))
              (openLoopF st.inLoop (lineTrim l) (lineTws l)) = loopCount s' := by
            rw [hso]
            simp only [endLoopF, he, if_true, openLoopF, ho]
            rw [hn, hst, loopCount_cons]
            by_cases hp : p.1.isLoop <;> simp [hp]
          rw [hend2, hl2]
          have hb2' : balancedFrom s'.length (docEvents rest) = true := by
            have hlen : st.stack.length - 1 = s'.length := by rw [hst]; simp
            rwa [hlen] at hb2
          obtain ⟨h1, h2, h3⟩ := ih
            ⟨s', loopCount s', termFlagF (lineTws l) st.afterTerminator,
              st.diags ++ lineDiags w st i l⟩ (i + 1) (by simpa using hb2') (by simp)
          refine ⟨h1, h2, ?_⟩
          rw [h3]
          dsimp only
          rw [hfil, hed, List.append_nil]
      | some k =>
        cases he : containsWord (lineTws l) kwEndL with
        | false =>
          have hev1 : lineEvents l = [.push k] := by
            simp [lineEvents, hopen, hend, ho, he]
          rw [hev1] at hb
          simp only [List.cons_append, List.nil_append, balancedFrom] at hb
          have hso : openStackF st.stack i (lineTrim l) (lineTws l) = (k, i) :: st.stack := by
            simp [openStackF, ho]
          have hed : endDiagF i (lineTrim l) (lineTws l)
              (openStackF st.stack i (lineTrim l) (lineTws l)) = [] := by
            simp [endDiagF, he]
          rw [hso]
          have hend2 : endStackF (lineTws l) ((k, i) :: st.stack) = (k, i) :: st.stack := by
            simp [endStackF, he]
          have hl2 : endLoopF (lineTws l) ((k, i) :: st.stack)
              (openLoopF st.inLoop (lineTrim l) (lineTws l))
              = loopCount ((k, i) :: st.stack) := by
            simp only [endLoopF, he, openLoopF, ho]
            rw [hn, loopCount_cons]
            by_cases hk : k.isLoop <;> simp [hk]
          rw [hend2, hl2]
          have hb' : balancedFrom ((k, i) :: st.stack).length (docEvents rest) = true := by
            simpa using hb
          obtain ⟨h1, h2, h3⟩ := ih
            ⟨(k, i) :: st.stack, loopCount ((k, i) :: st.stack),
              termFlagF (lineTws l) st.afterTerminator,
              st.diags ++ lineDiags w st i l⟩ (i + 1) (by simpa using hb') (by simp)
          refine ⟨h1, h2, ?_⟩
          rw [h3]
          dsimp only
          rw [hfil, hed, List.append_nil]
        | true =>
          have hev1 : lineEvents l = [.push k, .pop] := by
            simp [lineEvents, hopen, hend, ho, he]
          rw [hev1] at hb
          simp only [List.cons_append, List.nil_append, balancedFrom,
            Bool.and_eq_true] at hb
          obtain ⟨_, hb2⟩ := hb
          have hso : openStackF st.stack i (lineTrim l) (lineTws l) = (k, i) :: st.stack := by
            simp [openStackF, ho]
          have hed : endDiagF i (lineTrim l) (lineTws l)
              (openStackF st.stack i (lineTrim l) (lineTws l)) = [] := by
            simp [endDiagF, hso]
          rw [hso]
          have hend2 : endStackF (lineTws l) ((k, i) :: st.stack) = st.stack := by
            simp [endStackF, he]
          have hl2 : endLoopF (lineTws l) ((k, i) :: st.stack)
              (openLoopF st.inLoop (lineTrim l) (lineTws l)) = st.inLoop := by
            simp only [endLoopF, he, if_true, openLoopF, ho]
            by_cases hk : k.isLoop <;> simp [hk]
          rw [hend2, hl2]
          have hb2' : balancedFrom st.stack.length (docEvents rest) = true := by
            simpa using hb2
          obtain ⟨h1, h2, h3⟩ := ih
            ⟨st.stack, st.inLoop, termFlagF (lineTws l) st.afterTerminator,
              st.diags ++ lineDiags w st i l⟩ (i + 1) (by simpa using hb2')
            (by simpa using hn)
          refine ⟨h1, h2, ?_⟩
          rw [h3]
          dsimp only
          rw [hfil, hed, List.append_nil]

/-! ### Classification of semantic-pass diagnostics -/

theorem mem_valSemItem {lwc : List Char} {declared : List (List Char)} {i : Nat}
    {pm : Nat × Nat × List Char} :
    ∀ d ∈ valSemItem lwc declared i pm,
      (∃ n, d.message = .undefinedVar n) ∧ d.severity = .warning := by
  intro d hd
  unfold valSemItem at hd
  split at hd
  · simp at hd
  · split at hd
    · simp at hd
    · simp only [List.mem_singleton] at hd
      subst hd
      exact ⟨⟨_, rfl⟩, rfl⟩

theorem mem_valSemLine {declared : List (List Char)} {i : Nat} {l : List Char} :
    ∀ d ∈ valSemLine declared i l,
      (∃ n, d.message = .undefinedVar n) ∧ d.severity = .warning := by
  intro d hd
  unfold valSemLine at hd
  split at hd
  · simp at hd
  · dsimp only at hd
    simp only [List.mem_flatten, List.mem_map] at hd
    obtain ⟨lst, ⟨pm, _, rfl⟩, hdl⟩ := hd
    exact mem_valSemItem d hdl

theorem mem_valSemLines {declared : List (List Char)} :
    ∀ (lines : List (List Char)) (i : Nat), ∀ d ∈ valSemLines declared i lines,
      (∃ n, d.message = .undefinedVar n) ∧ d.severity = .warning := by
  intro lines
  induction lines with
  | nil => intro i d hd; simp [valSemLines] at hd
  | cons l rest ih =>
    intro i d hd
    rcases List.mem_append.mp hd with h | h
    · exact mem_valSemLine d h
    · exact ih (i + 1) d h

theorem mem_validateSemantics {lines : List (List Char)} {syms : List Sym} :
    ∀ d ∈ validateSemantics lines syms,
      (∃ n, d.message = .undefinedVar n) ∧ d.severity = .warning := by
  intro d hd
  exact mem_valSemLines lines 0 d hd

/-! ### Claim C2: well-formed nestings analyze cleanly -/

/-- Claim C2. —  For every document whose block openings and `end`s form a
balanced (Dyck) nesting — including the trivial document with no block
keyword and no `end` — the scan ends with an empty block stack and a zero
loop counter, and `analyze()` emits no unexpected-`end` error and no
unclosed-block error. -/
theorem C2_wellformed_blocks (text : String) (opts : AnalyzerOptions)
    (h : WellFormedDoc (splitLines text) = true) :
    (runLines opts.warnOnHostFunctions initSyn 0 (splitLines text)).stack = [] ∧
    (runLines opts.warnOnHostFunctions initSyn 0 (splitLines text)).inLoop = 0 ∧
    ∀ d ∈ (analyze (mkAnalyzer text opts)).1, dUnexp d = false ∧ dUnclosedB d = false := by
  obtain ⟨h1, h2, h3⟩ := runLines_balanced opts.warnOnHostFunctions (splitLines text)
    initSyn 0 (by simpa [WellFormedDoc] using h) rfl
  refine ⟨h1, h2, ?_⟩
  intro d hd
  have hsplit : (analyze (mkAnalyzer text opts)).1 =
      syntaxDiags opts.warnOnHostFunctions (splitLines text) ++
        validateSemantics (splitLines text) (extractAll (splitLines text) []) := rfl
  rw [hsplit] at hd
  rcases List.mem_append.mp hd with hd1 | hd2
  · have hud : unclosedDiags (splitLines text)
        (runLines opts.warnOnHostFunctions initSyn 0 (splitLines text)).stack = [] := by
      rw [h1]
      rfl
    have hd1' : d ∈ (runLines opts.warnOnHostFunctions initSyn 0 (splitLines text)).diags := by
      have : syntaxDiags opts.warnOnHostFunctions (splitLines text) =
          (runLines opts.warnOnHostFunctions initSyn 0 (splitLines text)).diags ++
            unclosedDiags (splitLines text)
              (runLines opts.warnOnHostFunctions initSyn 0 (splitLines text)).stack := rfl
      rw [this, hud, List.append_nil] at hd1
      exact hd1
    refine ⟨of_dfilter_nil (h3.trans rfl) d hd1', ?_⟩
    exact of_dfilter_nil
      ((runLines_unclosedB opts.warnOnHostFunctions (splitLines text) initSyn 0).trans rfl)
      d hd1'
  · obtain ⟨⟨n, hm⟩, _⟩ := mem_validateSemantics d hd2
    exact ⟨by simp [dUnexp, hm], by simp [dUnclosedB, hm]⟩

/-- Witness for C2 at the well-formed two-line document `if x then` / `end`. -/
theorem C2_wellformed_blocks_witness :
    (runLines defaultOptions.warnOnHostFunctions initSyn 0
        (splitLines "if x then\nend")).stack = [] ∧
    (runLines defaultOptions.warnOnHostFunctions initSyn 0
        (splitLines "if x then\nend")).inLoop = 0 ∧
    ∀ d ∈ (analyze (mkAnalyzer "if x then\nend" defaultOptions)).1,
      dUnexp d = false ∧ dUnclosedB d = false :=
  C2_wellformed_blocks "if x then\nend" defaultOptions (by decide)

/-! ### Claim C3: one unclosed-block error, for the innermost entry -/

/-- Claim C3. —  Whenever the line scan ends with a non-empty block stack,
`analyze()` emits exactly one unclosed-block error; it is attributed to the
top (innermost) stack entry, its message carries that entry's block kind, and
its range lies on that entry's opening line. -/
theorem C3_unclosed_innermost (text : String) (opts : AnalyzerOptions)
    (k : BlockKind) (ln : Nat) (rest : List (BlockKind × Nat))
    (h : (runLines opts.warnOnHostFunctions initSyn 0 (splitLines text)).stack
          = (k, ln) :: rest) :
    (analyze (mkAnalyzer text opts)).1.filter dUnclosedB =
      [⟨ln, 0, ln, (((splitLines text).getD ln []).length : Int),
        .unclosedBlock k, .error⟩] := by
  have hsplit : (analyze (mkAnalyzer text opts)).1 =
      ((runLines opts.warnOnHostFunctions initSyn 0 (splitLines text)).diags ++
        unclosedDiags (splitLines text)
          (runLines opts.warnOnHostFunctions initSyn 0 (splitLines text)).stack) ++
        validateSemantics (splitLines text) (extractAll (splitLines text) []) := rfl
  rw [hsplit, List.filter_append, List.filter_append]
  rw [show (runLines opts.warnOnHostFunctions initSyn 0 (splitLines text)).diags.filter
        dUnclosedB = [] from
      (runLines_unclosedB opts.warnOnHostFunctions (splitLines text) initSyn 0).trans rfl]
  rw [show (validateSemantics (splitLines text)
        (extractAll (splitLines text) [])).filter dUnclosedB = [] from
      dfilter_nil (fun d hd => by
        obtain ⟨⟨n, hm⟩, _⟩ := mem_validateSemantics d hd
        simp [dUnclosedB, hm])]
  rw [show unclosedDiags (splitLines text)
        (runLines opts.warnOnHostFunctions initSyn 0 (splitLines text)).stack =
      [⟨ln, 0, ln, (((splitLines text).getD ln []).length : Int),
        .unclosedBlock k, .error⟩] from by rw [h]; rfl]
  simp [dUnclosedB]

/-- Witness for C3 at the document `if x then` (unclosed `if` on line 0). -/
theorem C3_unclosed_innermost_witness :
    (analyze (mkAnalyzer "if x then" defaultOptions)).1.filter dUnclosedB =
      [⟨0, 0, 0, (((splitLines "if x then").getD 0 []).length : Int),
        .unclosedBlock .bIf, .error⟩] :=
  C3_unclosed_innermost "if x then" defaultOptions .bIf 0 [] (by decide)

/-- A whole-word occurrence is in particular a substring occurrence
(`includes` is implied by the word-boundary regex test). -/
theorem containsWord_substr {l kw : List Char} (h : containsWord l kw = true) :
    containsSubstr l kw = true := by
  unfold containsWord at h
  unfold containsSubstr
  simp only [List.any_eq_true] at h ⊢
  obtain ⟨i, hi, hw⟩ := h
  refine ⟨i, hi, ?_⟩
  simp only [wordAt, Bool.and_eq_true] at hw
  exact hw.1.1

/-! ### Claim C4: break outside a loop -/

/-- Claim C4. —  A non-skipped line whose masked text contains `break` as a whole
word, processed while the loop counter is 0 (and which neither opens a block
nor contains `end`, so the counter is unchanged at the check), contributes
exactly one break/continue Error naming `break` over the whole trimmed line;
and the document `while x do` / `break` / `end` produces no break/continue
diagnostic at all. -/
theorem C4_break_outside_loop :
    (∀ (w : Bool) (st : SynState) (i : Nat) (l : List Char),
      skipLine l = false →
      containsWord (lineTws l) kwBreakL = true →
      lineOpenK l = none →
      lineEndB l = false →
      st.inLoop = 0 →
      ((processLine w st i l).diags.drop st.diags.length).filter dBreakMsg =
        [⟨i, 0, i, ((lineTrim l).length : Int), .breakContinue true, .error⟩]) ∧
    (analyze (mkAnalyzer "while x do\nbreak\nend" defaultOptions)).1.filter
      dBreakMsg = [] := by
  constructor
  · intro w st i l hs hbw ho he hn
    have ho' : openKindF (lineTrim l) (lineTws l) = none := by
      simpa [lineOpenK, hs] using ho
    have he' : containsWord (lineTws l) kwEndL = false := by
      simpa [lineEndB, hs] using he
    rw [processLine_eq w st i l hs]
    dsimp only
    rw [List.drop_left, lineDiags_filter_break]
    rw [show endLoopF (lineTws l) (openStackF st.stack i (lineTrim l) (lineTws l))
          (openLoopF st.inLoop (lineTrim l) (lineTws l)) = st.inLoop from by
      simp [endLoopF, he', openLoopF, ho']]
    unfold breakDiagF
    rw [if_pos (by simp [hbw, hn])]
    rw [containsWord_substr hbw]
  · decide

/-- Witness for C4: the single line `break` at loop depth 0. -/
theorem C4_break_outside_loop_witness :
    ((processLine true initSyn 0 ("break".toList)).diags.drop
        initSyn.diags.length).filter dBreakMsg =
      [⟨0, 0, 0, ((lineTrim ("break".toList)).length : Int),
        .breakContinue true, .error⟩] :=
  C4_break_outside_loop.1 true initSyn 0 ("break".toList)
    (by decide) (by decide) (by decide) (by decide) rfl

/-! ### Claim C5: unreachable code after a terminator -/

/-- Claim C5. —  While the after-terminator flag is set, a non-skipped line that
does not start with a block-boundary keyword receives exactly one
unreachable-code Warning covering the whole trimmed line; a block-boundary
line receives none and clears the flag; a non-boundary line starting with
`return`/`fail` sets the flag; blank/comment lines change nothing; and the
two-line documents `return 1`/`foo()` and `return 1`/`end` behave as the
specification's examples state. -/
theorem C5_unreachable_after_terminator :
    (∀ (w : Bool) (st : SynState) (i : Nat) (l : List Char),
      skipLine l = false → st.afterTerminator = true →
      isBlockBoundaryL (lineTws l) = false →
      ((processLine w st i l).diags.drop st.diags.length).filter dUnreach =
        [⟨i, 0, i, ((lineTrim l).length : Int), .unreachable, .warning⟩]) ∧
    (∀ (w : Bool) (st : SynState) (i : Nat) (l : List Char),
      skipLine l = false → isBlockBoundaryL (lineTws l) = true →
      ((processLine w st i l).diags.drop st.diags.length).filter dUnreach = [] ∧
      (processLine w st i l).afterTerminator = false) ∧
    (∀ (w : Bool) (st : SynState) (i : Nat) (l : List Char),
      skipLine l = false → isBlockBoundaryL (lineTws l) = false →
      startsReturnFail (lineTws l) = true →
      (processLine w st i l).afterTerminator = true) ∧
    (∀ (w : Bool) (st : SynState) (i : Nat) (l : List Char),
      skipLine l = true → processLine w st i l = st) ∧
    (analyze (mkAnalyzer "return 1\nfoo()" defaultOptions)).1.filter dUnreach =
      [⟨1, 0, 1, 5, .unreachable, .warning⟩] ∧
    (analyze (mkAnalyzer "return 1\nend" defaultOptions)).1.filter dUnreach = [] := by
  refine ⟨?_, ?_, ?_, ?_, by decide, by decide⟩
  · intro w st i l hs hat hbb
    rw [processLine_eq w st i l hs]
    dsimp only
    rw [List.drop_left, lineDiags_filter_unreach]
    unfold termDiag
    rw [if_pos (by simp [hat, hbb])]
  · intro w st i l hs hbb
    rw [processLine_eq w st i l hs]
    dsimp only
    constructor
    · rw [List.drop_left, lineDiags_filter_unreach]
      unfold termDiag
      rw [if_neg (by simp [hbb])]
    · simp [termFlagF, hbb]
  · intro w st i l hs hbb hrf
    rw [processLine_eq w st i l hs]
    simp [termFlagF, hbb, hrf]
  · intro w st i l hs
    exact processLine_skip hs

/-- Witness for C5: the line `foo()` processed with the flag set. -/
theorem C5_unreachable_after_terminator_witness :
    ((processLine true ⟨[], 0, true, []⟩ 1 ("foo()".toList)).diags.drop
        (⟨[], 0, true, []⟩ : SynState).diags.length).filter dUnreach =
      [⟨1, 0, 1, ((lineTrim ("foo()".toList)).length : Int),
        .unreachable, .warning⟩] :=
  C5_unreachable_after_terminator.1 true ⟨[], 0, true, []⟩ 1 ("foo()".toList)
    (by decide) rfl (by decide)

/-- The scan `runEnd` does not move when the first character already fails the
predicate (or the position is past the end). -/
theorem runEnd_stop (p : Char → Bool) (l : List Char) (i : Nat)
    (h : ∀ c, l[i]? = some c → p c = false) : runEnd p l i = i := by
  unfold runEnd
  cases hf : l.length with
  | zero => rfl
  | succ n =>
    unfold runEndF
    cases hl : l[i]? with
    | none => rfl
    | some c => simp [h c hl]

/-- A successful `^var\s+\w+\s*:\s*(\w+)` match implies the guarding
`/^\s*var\s+/` test passes. -/
theorem varTypeMatch_startsVar {tr : List Char} {nm ty : List Char}
    (h : varTypeMatch tr = some (nm, ty)) : startsVarWs tr = true := by
  unfold varTypeMatch at h
  by_cases h0 : matchAt tr 0 ("var".toList) = true
  · have hv : tr[0]? = some 'v' := by
      unfold matchAt at h0
      cases tr with
      | nil => simp at h0
      | cons c ts =>
        simp only [List.drop_zero, String.toList] at h0
        have : (c :: ts).take 3 = ['v', 'a', 'r'] := by
          simpa using h0
        cases ts with
        | nil => simp at this
        | cons c2 ts2 =>
          simp [List.take] at this
          simp [this.1]
    have hz : runEnd isSpaceJS tr 0 = 0 :=
      runEnd_stop _ _ _ (fun c hc => by
        rw [hv] at hc
        cases hc
        rfl)
    rw [h0] at h
    simp only [if_true] at h
    unfold startsVarWs
    dsimp only
    rw [hz, h0]
    by_cases h1 : 3 < runEnd isSpaceJS tr 3
    · simp [h1]
    · rw [if_neg (by simpa using h1)] at h
      cases h
  · rw [if_neg (by simpa using h0)] at h
    cases h

/-! ### Claim C7 (amended): type-annotation errors -/

/-- Claim C7 (amended). —  For a non-skipped line matching the declaration shape
`var <name> : <type>`, the line contributes an unknown-type Error iff the
type is not one of the five fixed type keywords; the Error names the type and
its span covers the first occurrence of the type's text in the line (which is
the type token itself whenever that text does not occur earlier on the line).
Concretely, `var x: number` yields no diagnostic at all and `var x: integer`
yields exactly one Error, citing `integer`, spanning columns 7–14. -/
theorem C7_unknown_type (w : Bool) (st : SynState) (i : Nat) (l : List Char)
    (nm ty : List Char)
    (hs : skipLine l = false)
    (hm : varTypeMatch (lineTrim l) = some (nm, ty)) :
    ((processLine w st i l).diags.drop st.diags.length).filter dUnkTy =
      (if typeKeywords.contains ty then []
       else [⟨i, jsIndexOf l ty, i, jsIndexOf l ty + (ty.length : Int),
              .unknownType ty, .error⟩]) ∧
    (analyze (mkAnalyzer "var x: number" defaultOptions)).1 = [] ∧
    (analyze (mkAnalyzer "var x: integer" defaultOptions)).1.filter
        (fun d => match d.severity with | .error => true | _ => false) =
      [⟨0, 7, 0, 14, .unknownType ("integer".toList), .error⟩] := by
  refine ⟨?_, by decide, by decide⟩
  rw [processLine_eq w st i l hs]
  dsimp only
  rw [List.drop_left, lineDiags_filter_unkty]
  unfold typeDiag
  rw [if_pos (varTypeMatch_startsVar hm), hm]

/-- Witness for C7 at the line `var x: integer`. -/
theorem C7_unknown_type_witness :
    ((processLine true initSyn 0 ("var x: integer".toList)).diags.drop
        initSyn.diags.length).filter dUnkTy =
      (if typeKeywords.contains ("integer".toList) then []
       else [⟨0, jsIndexOf ("var x: integer".toList) ("integer".toList), 0,
              jsIndexOf ("var x: integer".toList) ("integer".toList) +
                (("integer".toList).length : Int),
              .unknownType ("integer".toList), .error⟩]) ∧
    (analyze (mkAnalyzer "var x: number" defaultOptions)).1 = [] ∧
    (analyze (mkAnalyzer "var x: integer" defaultOptions)).1.filter
        (fun d => match d.severity with | .error => true | _ => false) =
      [⟨0, 7, 0, 14, .unknownType ("integer".toList), .error⟩] :=
  C7_unknown_type true initSyn 0 ("var x: integer".toList)
    ("x".toList) ("integer".toList) (by decide) (by decide)

/-- Claim C7, counterexample to the claim as stated. —  On the line `var x: x`
the declared type's token sits at columns 7–8, but the emitted unknown-type
Error spans columns 4–5 (the source positions the span with
`line.indexOf(match[1])`, the first occurrence of the type's text, here the
variable name).  So the span does not always cover the type token. -/
theorem C7_unknown_type_counterexample :
    (∃ d ∈ (analyze (mkAnalyzer "var x: x" defaultOptions)).1,
       d.message = .unknownType ("x".toList) ∧ d.startChar = 4 ∧ d.endChar = 5) ∧
    (∀ d ∈ (analyze (mkAnalyzer "var x: x" defaultOptions)).1,
       ¬(d.startChar = 7 ∧ d.endChar = 8)) ∧
    ("var x: x".toList)[7]? = some 'x' := by
  decide

/-! ### Claim C8: the host-function advisory -/

/-- Anything the end-of-document unclosed-block check emits is an Error. -/
theorem mem_unclosedDiags {lines : List (List Char)} {s : List (BlockKind × Nat)} :
    ∀ d ∈ unclosedDiags lines s, d.severity = .error := by
  intro d hd
  unfold unclosedDiags at hd
  split at hd
  · simp at hd
  · simp only [List.mem_singleton] at hd
    subst hd
    rfl

/-- Claim C8. —  With the default registry (which contains `ToUpper`) and the
advisory flag on, `ToUpper(Data.name)` produces no diagnostic at all — in
particular no undefined-variable warning for `ToUpper` and no advisory —
while `FooBar(Data.name)` produces exactly one Information diagnostic, naming
`FooBar`; and with the advisory flag off no analysis of any document produces
an Information diagnostic. -/
theorem C8_host_function_advisory :
    (analyze (mkAnalyzer "ToUpper(Data.name)" defaultOptions)).1 = [] ∧
    (analyze (mkAnalyzer "FooBar(Data.name)" defaultOptions)).1 =
      [⟨0, 0, 0, 6, .hostFn ("FooBar".toList), .information⟩] ∧
    (∀ (text : String) (d : Diag),
      d ∈ (analyze (mkAnalyzer text ⟨false⟩)).1 → d.severity ≠ .information) := by
  refine ⟨by decide, by decide, ?_⟩
  intro text d hd
  have hsplit : (analyze (mkAnalyzer text ⟨false⟩)).1 =
      ((runLines false initSyn 0 (splitLines text)).diags ++
        unclosedDiags (splitLines text)
          (runLines false initSyn 0 (splitLines text)).stack) ++
        validateSemantics (splitLines text) (extractAll (splitLines text) []) := rfl
  rw [hsplit] at hd
  rcases List.mem_append.mp hd with hd1 | hd2
  · rcases List.mem_append.mp hd1 with hd3 | hd4
    · rcases runLines_info false (splitLines text) initSyn 0 d hd3 with h | h
      · simp [initSyn] at h
      · intro hi
        exact Bool.false_ne_true (h hi)
    · rw [mem_unclosedDiags d hd4]
      intro h
      cases h
  · rw [(mem_validateSemantics d hd2).2]
    intro h
    cases h

/-- Witness for C8's flag-off conjunct at the document `break` (whose single
diagnostic is an Error). -/
theorem C8_host_function_advisory_witness :
    (⟨0, 0, 0, 5, .breakContinue true, .error⟩ : Diag).severity ≠ .information :=
  C8_host_function_advisory.2.2 "break" ⟨0, 0, 0, 5, .breakContinue true, .error⟩
    (by decide)

/-! ### Claim C9: determinism of `analyze` -/

/-- Claim C9. —  `analyze()` first resets the diagnostic and symbol lists, so a
second call on the same analyzer returns the identical diagnostic sequence
and symbol sequence, and two analyzers constructed from identical text and
options return identical results. -/
theorem C9_analyze_deterministic (text : String) (opts : AnalyzerOptions) :
    (analyze (analyze (mkAnalyzer text opts)).2).1 = (analyze (mkAnalyzer text opts)).1 ∧
    (analyze (analyze (mkAnalyzer text opts)).2).2.symbols =
      (analyze (mkAnalyzer text opts)).2.symbols ∧
    (∀ a b : Analyzer, a = mkAnalyzer text opts → b = mkAnalyzer text opts →
      (analyze a).1 = (analyze b).1 ∧
      (analyze a).2.symbols = (analyze b).2.symbols) := by
  refine ⟨rfl, rfl, ?_⟩
  intro a b ha hb
  subst ha
  subst hb
  exact ⟨rfl, rfl⟩

/-- Witness for C9 on the concrete document `x`. -/
theorem C9_analyze_deterministic_witness :
    (analyze (mkAnalyzer "x" defaultOptions)).1 =
      (analyze (mkAnalyzer "x" defaultOptions)).1 ∧
    (analyze (mkAnalyzer "x" defaultOptions)).2.symbols =
      (analyze (mkAnalyzer "x" defaultOptions)).2.symbols :=
  (C9_analyze_deterministic "x" defaultOptions).2.2
    (mkAnalyzer "x" defaultOptions) (mkAnalyzer "x" defaultOptions) rfl rfl

/-! ### Claim C10: idempotence of `getSymbols` -/

/-- Claim C10. —  `getSymbols()` extracts on demand when the symbol list is
empty, so it works without a prior `analyze()`; repeated calls return the
identical sequence without appending duplicates, whether or not `analyze()`
ran in between. -/
theorem C10_getSymbols_idempotent (text : String) (opts : AnalyzerOptions) :
    (getSymbols (mkAnalyzer text opts)).1 = extractAll (splitLines text) [] ∧
    (getSymbols ((getSymbols (mkAnalyzer text opts)).2)).1 =
      (getSymbols (mkAnalyzer text opts)).1 ∧
    (getSymbols ((getSymbols (mkAnalyzer text opts)).2)).2.symbols =
      ((getSymbols (mkAnalyzer text opts)).2).symbols ∧
    (getSymbols ((analyze ((getSymbols (mkAnalyzer text opts)).2)).2)).1 =
      (getSymbols (mkAnalyzer text opts)).1 := by
  by_cases h : (extractAll (splitLines text) []) = []
  · refine ⟨rfl, ?_, ?_, ?_⟩ <;>
      simp [getSymbols, analyze, mkAnalyzer, h]
  · have h' : (extractAll (splitLines text) []).isEmpty = false := by
      simpa using h
    refine ⟨rfl, ?_, ?_, ?_⟩ <;>
      simp [getSymbols, analyze, mkAnalyzer, h']

/-! ### Claim C6: symbol extraction and property-path deduplication -/

/-- With enough fuel, `runEndF` lands right after the maximal satisfying run
(the `takeWhile` prefix of the remaining characters). -/
theorem runEndF_takeWhile (p : Char → Bool) (l : List Char) :
    ∀ (f i : Nat), l.length ≤ f + i →
      runEndF p l f i = i + ((l.drop i).takeWhile p).length := by
  intro f
  induction f with
  | zero =>
    intro i h
    have hd : l.drop i = [] := List.drop_eq_nil_of_le (by omega)
    simp [runEndF, hd]
  | succ f ih =>
    intro i h
    unfold runEndF
    cases hl : l[i]? with
    | none =>
      have hd : l.drop i = [] :=
        List.drop_eq_nil_of_le (List.getElem?_eq_none_iff.mp hl)
      simp [hd]
    | some c =>
      obtain ⟨hi, hg⟩ := List.getElem?_eq_some_iff.mp hl
      have hdrop : l.drop i = c :: l.drop (i + 1) := by
        rw [List.drop_eq_getElem_cons hi, hg]
      dsimp only
      by_cases hp : p c
      · rw [if_pos hp, ih (i + 1) (by omega), hdrop]
        simp [List.takeWhile_cons, hp]
        omega
      · rw [if_neg hp, hdrop]
        simp [List.takeWhile_cons, hp]

/-- The slice between `i` and `runEnd p l i` is a `takeWhile` prefix. -/
theorem slice_runEnd (p : Char → Bool) (l : List Char) (i : Nat) :
    (l.drop i).take (runEnd p l i - i) = (l.drop i).takeWhile p := by
  have h := runEndF_takeWhile p l l.length i (by omega)
  unfold runEnd
  rw [h, Nat.add_sub_cancel_left]
  exact (List.prefix_iff_eq_take.mp (List.takeWhile_prefix p)).symm

/-- Every character of such a slice satisfies the predicate. -/
theorem slice_runEnd_all (p : Char → Bool) (l : List Char) (i : Nat) :
    ((l.drop i).take (runEnd p l i - i)).all p = true := by
  rw [slice_runEnd, List.all_eq_true]
  intro c hc
  exact List.mem_takeWhile_imp hc

/-- Members of a global-regex match list really are matches. -/
theorem mem_findAllF {α : Type} {f : Nat → Option (Nat × α)} {len : Nat} :
    ∀ (fu p : Nat), ∀ pm ∈ findAllF f len fu p, f pm.1 = some (pm.2.1, pm.2.2) := by
  intro fu
  induction fu with
  | zero => intro p pm hm; simp [findAllF] at hm
  | succ fu ih =>
    intro p pm hm
    unfold findAllF at hm
    split at hm
    · split at hm
      · rcases List.mem_cons.mp hm with rfl | hm'
        · simpa using (by assumption : f p = some _)
        · exact ih _ pm hm'
      · exact ih _ pm hm
    · simp at hm

/-- Members of a global-regex match list really are matches. -/
theorem mem_findAll {α : Type} {f : Nat → Option (Nat × α)} {len : Nat} :
    ∀ pm ∈ findAll f len, f pm.1 = some (pm.2.1, pm.2.2) :=
  mem_findAllF (len + 1) 0

/-- The name captured by a `var` match is a `\w+` run. -/
theorem matchVarAt_name {trimmed : List Char} {p e : Nat} {nm : List Char}
    {ty : Option (List Char)}
    (h : matchVarAt trimmed p = some (e, (nm, ty))) : nm.all isWordChar = true := by
  unfold matchVarAt at h
  split at h
  · dsimp only at h
    split at h
    · split at h
      · split at h
        · split at h
          · rw [Option.some_inj] at h
            have hnm : nm = (trimmed.drop (runEnd isSpaceJS trimmed (p + 3))).take
                (runEnd isWordChar trimmed (runEnd isSpaceJS trimmed (p + 3)) -
                  runEnd isSpaceJS trimmed (p + 3)) :=
              (congrArg (fun x => x.2.1) h).symm
            rw [hnm]
            exact slice_runEnd_all isWordChar trimmed _
          · rw [Option.some_inj] at h
            have hnm : nm = (trimmed.drop (runEnd isSpaceJS trimmed (p + 3))).take
                (runEnd isWordChar trimmed (runEnd isSpaceJS trimmed (p + 3)) -
                  runEnd isSpaceJS trimmed (p + 3)) :=
              (congrArg (fun x => x.2.1) h).symm
            rw [hnm]
            exact slice_runEnd_all isWordChar trimmed _
        · rw [Option.some_inj] at h
          have hnm : nm = (trimmed.drop (runEnd isSpaceJS trimmed (p + 3))).take
              (runEnd isWordChar trimmed (runEnd isSpaceJS trimmed (p + 3)) -
                runEnd isSpaceJS trimmed (p + 3)) :=
            (congrArg (fun x => x.2.1) h).symm
          rw [hnm]
          exact slice_runEnd_all isWordChar trimmed _
      · cases h
    · cases h
  · cases h

/-- A list of word characters contains no dot. -/
theorem nodot_of_all {nm : List Char} (h : nm.all isWordChar = true) : '.' ∉ nm := by
  intro hin
  have := List.all_eq_true.mp h '.' hin
  exact absurd this (by decide)

theorem cntProp_append (q : List Char) (a b : List Sym) :
    cntProp q (a ++ b) = cntProp q a + cntProp q b := by
  unfold cntProp
  rw [List.filter_append, List.length_append]

/-- A batch in which nothing is a property symbol named `q` counts zero. -/
theorem cntProp_zero {q : List Char} {syms : List Sym}
    (h : ∀ s ∈ syms, (s.type == some propTag && s.name == q) = false) :
    cntProp q syms = 0 := by
  unfold cntProp
  rw [dfilter_nil h]
  rfl

theorem cnt_varSymsOf {line trimmed : List Char} {i : Nat} {q : List Char}
    (hq : '.' ∈ q) : cntProp q (varSymsOf line trimmed i) = 0 := by
  refine cntProp_zero (fun s hs => ?_)
  unfold varSymsOf at hs
  simp only [List.mem_map] at hs
  obtain ⟨pm, hpm, rfl⟩ := hs
  have hmatch := mem_findAll pm hpm
  have hall : pm.2.2.1.all isWordChar = true := matchVarAt_name hmatch
  have hne : pm.2.2.1 ≠ q := fun he => nodot_of_all hall (he ▸ hq)
  simp [hne]

theorem cnt_foreachSymOf {line trimmed : List Char} {i : Nat} {q : List Char} :
    cntProp q (foreachSymOf line trimmed i) = 0 := by
  refine cntProp_zero (fun s hs => ?_)
  unfold foreachSymOf at hs
  split at hs
  · simp only [List.mem_singleton] at hs
    subst hs
    simp [show (some iteratorTag == some propTag) = false from by decide]
  · simp at hs

theorem cnt_forSymOf {line trimmed : List Char} {i : Nat} {q : List Char} :
    cntProp q (forSymOf line trimmed i) = 0 := by
  refine cntProp_zero (fun s hs => ?_)
  unfold forSymOf at hs
  split at hs
  · simp only [List.mem_singleton] at hs
    subst hs
    simp [show (some iteratorTag == some propTag) = false from by decide]
  · simp at hs

theorem cnt_parenLambdaSymsOf {line trimmed : List Char} {i : Nat} {q : List Char} :
    cntProp q (parenLambdaSymsOf line trimmed i) = 0 := by
  refine cntProp_zero (fun s hs => ?_)
  unfold parenLambdaSymsOf at hs
  simp only [List.mem_flatten, List.mem_map] at hs
  obtain ⟨lst, ⟨pm, _, rfl⟩, hs1⟩ := hs
  simp only [List.mem_flatten, List.mem_map] at hs1
  obtain ⟨lst2, ⟨param, _, rfl⟩, hs2⟩ := hs1
  unfold parenParamSyms at hs2
  dsimp only at hs2
  split at hs2
  · simp only [List.mem_singleton] at hs2
    subst hs2
    simp [show (some lambdaParamTag == some propTag) = false from by decide]
  · simp at hs2

theorem cnt_bareLambdaFold (line trimmed : List Char) (i : Nat) (q : List Char) :
    ∀ syms, cntProp q (bareLambdaFold line trimmed i syms) = cntProp q syms := by
  unfold bareLambdaFold
  generalize findAll (matchBareLambdaAt trimmed) trimmed.length = ms
  induction ms with
  | nil => intro syms; rfl
  | cons pm rest ih =>
    intro syms
    simp only [List.foldl_cons]
    rw [ih]
    split
    · rfl
    · rw [cntProp_append]
      have hx : cntProp q
          [⟨pm.2.2, some lambdaParamTag, i, jsIndexOfFrom line pm.2.2 pm.1⟩] = 0 := by
        refine cntProp_zero (fun s hs => ?_)
        simp only [List.mem_singleton] at hs
        subst hs
        simp [show (some lambdaParamTag == some propTag) = false from by decide]
      omega

/-- The property-assignment fold preserves the invariant. -/
theorem propFold_inv (line trimmed : List Char) (i : Nat) :
    ∀ (acc : List Sym × List (List Char)), PropInv acc.1 acc.2 →
      PropInv (propFold line trimmed i acc).1 (propFold line trimmed i acc).2 := by
  unfold propFold
  generalize findAll (matchPropAt trimmed) trimmed.length = ms
  induction ms with
  | nil => intro acc h; exact h
  | cons pm rest ih =>
    intro acc h
    simp only [List.foldl_cons]
    apply ih
    split
    · exact h
    · next hseen =>
      dsimp only
      intro q hq
      obtain ⟨h1, h2⟩ := h q hq
      have hnotseen : pm.2.2 ∉ acc.2 := fun he => hseen (by simpa using he)
      by_cases hqp : q = pm.2.2
      · have hz : cntProp q acc.1 = 0 := h2 (fun he => hnotseen (hqp ▸ he))
        constructor
        · rw [cntProp_append, hz]
          have hle : cntProp q
              [⟨pm.2.2, some propTag, i, jsIndexOf line pm.2.2⟩] ≤ 1 := by
            unfold cntProp
            simp only [List.filter]
            split <;> simp
          omega
        · intro hq2
          exact absurd (by simp [hqp] : q ∈ pm.2.2 :: acc.2) hq2
      · have hx : cntProp q [⟨pm.2.2, some propTag, i, jsIndexOf line pm.2.2⟩] = 0 := by
          refine cntProp_zero (fun s hs => ?_)
          simp only [List.mem_singleton] at hs
          subst hs
          simp [show (pm.2.2 == q) = false from
            beq_eq_false_iff_ne.mpr (fun he => hqp he.symm)]
        constructor
        · rw [cntProp_append, hx]
          omega
        · intro hq2
          rw [cntProp_append, hx]
          have : q ∉ acc.2 := fun he => hq2 (by simp [he])
          rw [h2 this]

/-- A line of extraction preserves the invariant. -/
theorem extractLine_inv (i : Nat) (l : List Char) (acc : List Sym × List (List Char))
    (h : PropInv acc.1 acc.2) :
    PropInv (extractLine i l acc).1 (extractLine i l acc).2 := by
  unfold extractLine
  split
  · exact h
  · dsimp only
    apply propFold_inv
    intro q hq
    obtain ⟨h1, h2⟩ := h q hq
    rw [cnt_bareLambdaFold]
    rw [cntProp_append, cntProp_append, cntProp_append, cntProp_append]
    rw [cnt_varSymsOf hq, cnt_foreachSymOf, cnt_forSymOf, cnt_parenLambdaSymsOf]
    constructor
    · omega
    · intro hq2
      rw [h2 hq2]

/-- The whole extraction keeps at most one property symbol per dotted name. -/
theorem extractLoop_inv :
    ∀ (lines : List (List Char)) (i : Nat) (acc : List Sym × List (List Char)),
      PropInv acc.1 acc.2 →
      ∀ q : List Char, '.' ∈ q → cntProp q (extractLoop i acc lines) ≤ 1 := by
  intro lines
  induction lines with
  | nil => intro i acc h q hq; exact (h q hq).1
  | cons l rest ih =>
    intro i acc h q hq
    exact ih (i + 1) (extractLine i l acc) (extractLine_inv i l acc h) q hq

/-- Claim C6. —  Symbol extraction never deduplicates `var` declarations — the
document `var total: number` / `var total: string` yields two symbols named
`total` — but deduplicates property paths document-wide: for every document
and every dotted path, at most one property-tagged symbol with that name is
recorded, and `Data.x = 1` / `Data.x = 2` yields exactly the one `property`
symbol for `Data.x` positioned at the first textual occurrence. -/
theorem C6_symbol_dedup :
    (∀ (text : String) (opts : AnalyzerOptions) (q : List Char), '.' ∈ q →
      cntProp q ((getSymbols (mkAnalyzer text opts)).1) ≤ 1) ∧
    (getSymbols (mkAnalyzer "var total: number\nvar total: string"
        defaultOptions)).1 =
      [⟨"total".toList, some ("number".toList), 0, 4⟩,
       ⟨"total".toList, some ("string".toList), 1, 4⟩] ∧
    (getSymbols (mkAnalyzer "Data.x = 1\nData.x = 2" defaultOptions)).1 =
      [⟨"Data.x".toList, some propTag, 0, 0⟩] := by
  refine ⟨?_, by decide, by decide⟩
  intro text opts q hq
  have hinit : PropInv ([] : List Sym) ([] : List (List Char)) := by
    intro q hq
    exact ⟨by simp [cntProp], fun _ => by simp [cntProp]⟩
  exact extractLoop_inv (splitLines text) 0 ([], []) hinit q hq

/-- Witness for C6's general conjunct at `q = Data.x`. -/
theorem C6_symbol_dedup_witness :
    cntProp ("Data.x".toList)
      ((getSymbols (mkAnalyzer "Data.x = 1\nData.x = 2" defaultOptions)).1) ≤ 1 :=
  C6_symbol_dedup.1 "Data.x = 1\nData.x = 2" defaultOptions ("Data.x".toList)
    (by decide)

/-! ### Claim C1: the string-literal scanner's escaping rule -/

/-- Claim C1. —  For every single line, `hasBalancedStrings` implements the
standard backslash-escaping rule: scanning left to right, a quote character
toggles the string state iff the count of consecutive immediately-preceding
backslashes (`bsRun`) is even (non-quote characters leave the state alone);
the function returns true iff the scan ends outside any string literal; and
the three concrete examples of the specification hold. -/
theorem C1_escape_rule :
    hasBalancedStrings ("a \"b\" c".toList) = true ∧
    hasBalancedStrings ("a \"b c".toList) = false ∧
    hasBalancedStrings ("a \\\"b\\\" c".toList) = true ∧
    (∀ l : List Char, hasBalancedStrings l = true ↔ stateAfter l l.length = none) ∧
    (∀ (l : List Char) (i : Nat) (c : Char), l[i]? = some c → (c = '"' ∨ c = '\'') →
      stateAfter l (i + 1) =
        if bsRun l i % 2 = 0 then toggleQuote (stateAfter l i) c else stateAfter l i) ∧
    (∀ (l : List Char) (i : Nat) (c : Char), l[i]? = some c → ¬(c = '"' ∨ c = '\'') →
      stateAfter l (i + 1) = stateAfter l i) := by
  refine ⟨by decide, by decide, by decide, ?_, ?_, ?_⟩
  · intro l
    simp [hasBalancedStrings, Option.isNone_iff_eq_none]
  · intro l i c h hq
    rcases hq with rfl | rfl <;>
      · simp only [stateAfter, h]
        by_cases hm : bsRun l i % 2 = 0 <;> simp [hm, Nat.mod_two_ne_zero]
  · intro l i c h hq
    push_neg at hq
    have hb : (c == '"' || c == '\'') = false := by
      simp [hq.1, hq.2]
    simp [stateAfter, h, hb]

/-- Witness for C1: the toggle rule applied to the concrete line `\"a`
(one preceding backslash, so the quote does not toggle). -/
theorem C1_escape_rule_witness :
    stateAfter ("\\\"a".toList) 2 =
      (if bsRun ("\\\"a".toList) 1 % 2 = 0 then
        toggleQuote (stateAfter ("\\\"a".toList) 1) '"'
       else stateAfter ("\\\"a".toList) 1) :=
  C1_escape_rule.2.2.2.2.1 ("\\\"a".toList) 1 '"' (by decide) (Or.inl rfl)

end Jyro

